import Mathlib

/-!
# Verification of the Telegram booking bot (`main.py`, `utils.py`, `models.py`)

A shallow embedding of the booking engine of the repository:

* calendar dates are modelled by their proleptic-Gregorian ordinal
  (Python's `date.toordinal()`), an integer; subtraction of two dates,
  `(d2 - d1).days`, is then integer subtraction;
* the MySQL `Booking` table is a list of `BookingRec`; `Resource.price`
  (a `FloatField`) is modelled as an exact rational, so Python's float
  arithmetic is modelled as exact arithmetic on ℚ (all concrete values in
  the claims — integral prices, small products — are exactly representable
  as binary floats, where the two coincide);
* Python's `int(x)` on a non-negative number truncates toward zero, which
  on an exact rational `q` is `q.num / q.den` with `Int` T-division;
* each Telegram handler becomes a pure function from its inputs (the
  booking row it loads, the current table, the wall clock `today`) to the
  updated row/table plus the externally visible effects it performs
  (answering the pre-checkout query, notifying the managers chat).
-/

namespace Booking

/-- Python `int(q)` for an exact rational: truncation toward zero
(`Int.tdiv` of the numerator by the denominator, exactly Python's `int`). -/
def truncRat (q : ℚ) : ℤ := q.num.tdiv (q.den : ℤ)

/-- Days in the months of a non-leap year, cumulative before month `m`
(1-indexed), as used by Python's `datetime.date` ordinal computation. -/
def daysBeforeMonthTable : List ℕ := [0, 31, 59, 90, 120, 151, 181, 212, 243, 273, 304, 334]

/-- Gregorian leap-year test. -/
def isLeapYear (y : ℕ) : Bool := y % 4 == 0 && (y % 100 != 0 || y % 400 == 0)

/-- Python `date(y, m, d).toordinal()`: day number with 0001-01-01 ↦ 1. -/
def toordinal (y m d : ℕ) : ℕ :=
  365 * (y - 1) + (y - 1) / 4 - (y - 1) / 100 + (y - 1) / 400
    + daysBeforeMonthTable.getD (m - 1) 0
    + (if 2 < m && isLeapYear y then 1 else 0)
    + d

/-- A row of the `Booking` table (`models.py`): `check_in`/`check_out` are
nullable `DateField`s (dates as ordinals), `status` a string that defaults
to `'pending'`, `amount` a float (modelled exactly as ℚ). -/
structure BookingRec where
  id : ℕ
  telegram_id : ℤ
  resource : ℕ
  check_in : Option ℤ
  check_out : Option ℤ
  status : String
  amount : ℚ
deriving DecidableEq

/-- The SQL conflict filter of `handle_pre_checkout_query` (main.py
780-786): same resource, different row, status `'confirmed'`,
`check_in <= booking.check_out` and `check_out >= booking.check_in`.
A SQL comparison against a NULL `check_in`/`check_out` is not true, so a
row with either date unset never matches. -/
def sqlConflict (b : BookingRec) (c : BookingRec) : Bool :=
  c.resource == b.resource && c.id != b.id && c.status == "confirmed" &&
    (match c.check_in, b.check_out with
      | some s, some co => decide (s ≤ co)
      | _, _ => false) &&
    (match c.check_out, b.check_in with
      | some e, some ci => decide (ci ≤ e)
      | _, _ => false)

/-- The server-side charge recomputed by `callback_confirm_booking` and
`handle_pre_checkout_query`:
`int(float(((check_out - check_in).days + 1) * price) * 100)`. -/
def expectedAmount (ci co : ℤ) (price : ℚ) : ℤ :=
  truncRat ((((co - ci) + 1 : ℤ) : ℚ) * price * 100)

/-- Observable outcome of `handle_pre_checkout_query` (main.py 740-800):
whether the query was answered `ok`, the booking row after the handler
(it may write `status`), and whether the payer was messaged. -/
structure PreCheckoutOutcome where
  ok : Bool
  booking : BookingRec
  notifiedUser : Bool
deriving DecidableEq

/-- `handle_pre_checkout_query` (main.py 740-800) on the booking row named
by the invoice payload. `db` is the `Booking` table the conflict query runs
against, `price` is `booking.resource.price`, `total` the query's
`total_amount` (always present on a Telegram `PreCheckoutQuery`). In order:
reject if status is not `'waiting_payment'`; reject and mark `'failed'` if
either date is missing; reject, mark `'conflict'` and message the user if
the SQL conflict query finds a row; reject if the amount mismatches
(leaving the row untouched); otherwise answer ok. -/
def handle_pre_checkout_query (db : List BookingRec) (b : BookingRec) (price : ℚ)
    (total : ℤ) : PreCheckoutOutcome :=
  if b.status != "waiting_payment" then ⟨false, b, false⟩
  else
    match b.check_in, b.check_out with
    | none, _ => ⟨false, { b with status := "failed" }, false⟩
    | some _, none => ⟨false, { b with status := "failed" }, false⟩
    | some ci, some co =>
      if db.any (sqlConflict b) then ⟨false, { b with status := "conflict" }, true⟩
      else if total != expectedAmount ci co price then ⟨false, b, false⟩
      else ⟨true, b, false⟩

/-- Observable outcome of `handle_successful_payment` (main.py 803-846):
the booking row afterwards, whether the managers chat was notified, and
whether `amount` was written. -/
structure PaymentOutcome where
  booking : BookingRec
  managerNotified : Bool
  amountWritten : Bool
deriving DecidableEq

/-- `handle_successful_payment` (main.py 803-846) on an existing booking
row: when the row is already `'confirmed'` it only messages the payer and
returns; otherwise it sets `status = 'confirmed'`,
`amount = float(total_amount / 100)` (true division, exact on ℚ), saves,
and notifies the managers chat. -/
def handle_successful_payment (b : BookingRec) (total : ℤ) : PaymentOutcome :=
  if b.status == "confirmed" then ⟨b, false, false⟩
  else ⟨{ b with status := "confirmed", amount := (total : ℚ) / 100 }, true, true⟩

/-- `callback_confirm_booking` (main.py 681-737), the part that allocates
the booking row and computes the invoice amount: with both session dates
set it creates a row with status `'waiting_payment'`, and computes
`amount = int(float(((check_out - check_in).days + 1) * resource.price) * 100)`
for the invoice; if `send_invoice` raises, the row's status is set to
`'failed'`. Returns the persisted row and the invoice amount. -/
def callback_confirm_booking (uid : ℤ) (resId : ℕ) (price : ℚ) (newId : ℕ)
    (ci co : ℤ) (invoiceOk : Bool) : BookingRec × ℤ :=
  let b : BookingRec :=
    { id := newId, telegram_id := uid, resource := resId, check_in := some ci,
      check_out := some co, status := "waiting_payment", amount := 0 }
  let amount := expectedAmount ci co price
  (if invoiceOk then b else { b with status := "failed" }, amount)

/-- `callback_cancel_my_booking` (main.py 980-1024) on the loaded row:
if `booking.check_in <= date.today()` the cancellation is refused and the
row is left untouched; otherwise `status = 'cancelled'` is saved and the
managers chat is notified. A row with `check_in` NULL makes the Python
comparison raise, so nothing is written (modelled as no change, no
notification). Returns the row afterwards and whether the cancellation
was applied (= managers notified). -/
def callback_cancel_my_booking (today : ℤ) (b : BookingRec) : BookingRec × Bool :=
  match b.check_in with
  | none => (b, false)
  | some ci =>
    if ci ≤ today then (b, false)
    else ({ b with status := "cancelled" }, true)

end Booking

namespace Booking

/-- `get_day_status` (utils.py 116-147): walk the `(telegram_id, start,
end)` triples in list order and return `"mine"`/`"others"` for the first
range containing the day, else `"free"`. -/
def get_day_status (day : ℤ) (bookings : List (ℤ × ℤ × ℤ)) (uid : ℤ) : String :=
  match bookings with
  | [] => "free"
  | (t, s, e) :: rest =>
    if s ≤ day ∧ day ≤ e then (if t == uid then "mine" else "others")
    else get_day_status day rest uid

/-- `get_booked_ranges_for_resource` (utils.py 150-196) restricted to its
in-memory part: from the rows of the query (same resource, status
`'confirmed'`, `check_out` NULL or `>= today`) keep those with `check_in`
set, substitute `check_in` for a missing `check_out`, and drop ranges that
ended before today. Result: `(telegram_id, start, end)` triples. -/
def get_booked_ranges_for_resource (today : ℤ) (resId : ℕ) (db : List BookingRec) :
    List (ℤ × ℤ × ℤ) :=
  (db.filter (fun b =>
      b.resource == resId &&
        (match b.check_out with | none => true | some e => decide (today ≤ e)) &&
        b.status == "confirmed")).filterMap
    (fun b =>
      match b.check_in with
      | none => none
      | some s =>
        let e := b.check_out.getD s
        if e < today then none else some (b.telegram_id, s, e))

/-- One rendered cell of the inline calendar. -/
inductive DayCell where
  /-- a past day, label `—`, callback `null` -/
  | past
  /-- a day booked by the viewer, green square, callback `null` -/
  | mine
  /-- a day booked by someone else, red square, callback `null` -/
  | others
  /-- check-out stage, day not after the prior check-in: label `—`, callback `null` -/
  | blocked
  /-- a selectable day: callback `datepick:<stage>:<iso>:<page>` -/
  | pick (day : ℤ) (stage : String)
deriving DecidableEq

/-- Whether a cell carries a selectable `datepick` action. -/
def DayCell.selectable : DayCell → Bool
  | .pick _ _ => true
  | _ => false

/-- The `min_date` bound of `send_calendar` (main.py 531-532): `today`
in the check-in stage, else the stored check-in, or `date.max` when the
check-in is unset (`date.max.toordinal() = 3652059`). -/
def sendCalendarMinDate (stage : String) (today : ℤ) (check_in : Option ℤ) : ℤ :=
  if stage == "check_in" then today else check_in.getD 3652059

/-- The per-day classification of `send_calendar` (main.py 536-558):
past days first, then `get_day_status` (`mine`/`others`), then the
check-out lower bound, and only then a selectable button. -/
def send_calendar_cell (today : ℤ) (stage : String) (check_in : Option ℤ)
    (bookedRanges : List (ℤ × ℤ × ℤ)) (uid : ℤ) (day : ℤ) : DayCell :=
  if day < today then .past
  else if get_day_status day bookedRanges uid = "mine" then .mine
  else if get_day_status day bookedRanges uid = "others" then .others
  else if stage = "check_out" ∧ day ≤ sendCalendarMinDate stage today check_in then .blocked
  else .pick day stage

/-- In-memory per-user session fields touched by the date-pick handler
(`user_booking_state[uid]`). -/
structure SessionState where
  res_id : ℕ
  check_in : Option ℤ
  check_out : Option ℤ
deriving DecidableEq

/-- Outcome of the check-out branch of `callback_datepick`. -/
inductive DatePickOutcome where
  /-- `date_obj <= state['check_in']`: alert, state untouched -/
  | alert (state : SessionState)
  /-- `state['check_in']` was `None`: the Python comparison raises, nothing written -/
  | error
  /-- overlap found: check-in cleared, calendar re-shown at check-in stage -/
  | overlapReset (state : SessionState)
  /-- check-out stored, summary shown with the Apply button -/
  | success (state : SessionState)
deriving DecidableEq

/-- The overlap loop of `callback_datepick` (main.py 628-636): walk the
`(check_in, check_out)` pairs of *confirmed* bookings of the resource;
pairs with either date NULL are skipped (`if not s or not e: continue`);
fail on the first pair with `state['check_in'] <= e and date_obj >= s`. -/
def datepickOverlap (ci cand : ℤ) (pairs : List (Option ℤ × Option ℤ)) : Bool :=
  pairs.any (fun p =>
    match p with
    | (some s, some e) => decide (ci ≤ e) && decide (s ≤ cand)
    | _ => false)

/-- The `select_type == 'check_out'` branch of `callback_datepick`
(main.py 625-647). `db` is the `Booking` table; the handler re-queries the
confirmed bookings of the session's resource. On overlap the session's
check-in is set to `None` and the check-in calendar is re-sent with a
warning; otherwise the check-out is stored. -/
def callback_datepick_checkout (state : SessionState) (db : List BookingRec)
    (cand : ℤ) : DatePickOutcome :=
  match state.check_in with
  | none => .error
  | some ci =>
    if cand ≤ ci then .alert state
    else if datepickOverlap ci cand
        (((db.filter (fun b => b.resource == state.res_id && b.status == "confirmed")).map
          (fun b => (b.check_in, b.check_out)))) then
      .overlapReset { state with check_in := none }
    else
      .success { state with check_out := some cand }

end Booking

namespace Booking

/-- Update the row with identifier `id` in the table, as a peewee
`booking.save()` does. -/
def updateRow (db : List BookingRec) (id : ℕ) (f : BookingRec → BookingRec) :
    List BookingRec :=
  db.map (fun b => if b.id == id then f b else b)

/-- An inbound handler event of the booking flow, at the level the claims
quantify over: a check-out date selection, a booking confirmation (with the
outcome of the invoice dispatch), a pre-checkout validation, a
successful-payment notification, a cancellation. -/
inductive BotEvent where
  /-- `callback_datepick` in the check-out stage: writes only the in-memory
  session, never the `Booking` table -/
  | checkoutSelect (uid : ℤ) (cand : ℤ)
  /-- `callback_confirm_booking`: allocates a `waiting_payment` row (marked
  `failed` when the invoice dispatch raises) -/
  | confirmBooking (uid : ℤ) (res : ℕ) (ci co : ℤ) (invoiceOk : Bool)
  /-- `handle_pre_checkout_query` on row `id` with the proposed `total` -/
  | preCheckout (id : ℕ) (total : ℤ)
  /-- `handle_successful_payment` on row `id` with the paid `total` -/
  | successfulPayment (id : ℕ) (total : ℤ)
  /-- `callback_cancel_my_booking` on row `id`, handled when the wall clock
  reads `today` -/
  | cancelBooking (id : ℕ) (today : ℤ)

/-- Effect of one handler event on the `Booking` table. `prices` gives
`Resource.price` per resource id; fresh rows take the next free id
(`db.length`). An event naming an absent row raises in Python
(`DoesNotExist`) before any write, leaving the table unchanged. -/
def step (prices : ℕ → ℚ) (db : List BookingRec) : BotEvent → List BookingRec
  | .checkoutSelect _ _ => db
  | .confirmBooking uid res ci co invoiceOk =>
    db ++ [(callback_confirm_booking uid res (prices res) db.length ci co invoiceOk).1]
  | .preCheckout id total =>
    updateRow db id (fun b => (handle_pre_checkout_query db b (prices b.resource) total).booking)
  | .successfulPayment id total =>
    updateRow db id (fun b => (handle_successful_payment b total).booking)
  | .cancelBooking id today =>
    updateRow db id (fun b => (callback_cancel_my_booking today b).1)

/-- The table after a sequence of handler events, starting empty. -/
def run (prices : ℕ → ℚ) (evs : List BotEvent) : List BookingRec :=
  evs.foldl (step prices) []

/-- The date range a booking is projected to by the claim: `[check_in,
check_out]`, a row with an unset check-out counting as the single day
`check_in`; a row with no check-in has no range. -/
def projRange (b : BookingRec) : Option (ℤ × ℤ) :=
  match b.check_in with
  | none => none
  | some ci => some (ci, b.check_out.getD ci)

/-- Two bookings of the same resource whose projected date ranges
intersect. -/
def overlaps (b c : BookingRec) : Prop :=
  b.resource = c.resource ∧
    ∃ rb rc, projRange b = some rb ∧ projRange c = some rc ∧
      rb.1 ≤ rc.2 ∧ rc.1 ≤ rb.2

/-- The claimed invariant: the `'confirmed'` rows of the table, resource by
resource, are pairwise non-overlapping. -/
def ConfDisjoint (db : List BookingRec) : Prop :=
  db.Pairwise (fun b c => b.status = "confirmed" → c.status = "confirmed" → ¬ overlaps b c)

/-- Auxiliary invariant: every `'confirmed'` row has both dates set. -/
def ConfDatesSet (db : List BookingRec) : Prop :=
  ∀ b ∈ db, b.status = "confirmed" →
    (∃ ci, b.check_in = some ci) ∧ ∃ co, b.check_out = some co

/-- Auxiliary invariant: row ids coincide with list positions (fresh ids
are allocated as `db.length`), so ids are unique. -/
def IdsIndexed (db : List BookingRec) : Prop :=
  ∀ (i : ℕ) (h : i < db.length), db[i].id = i

end Booking

namespace Booking

/-- The handler events again, with the payment handshake made atomic: a
`paySuccess` event runs `handle_pre_checkout_query` and, only when the
charge was approved, immediately applies `handle_successful_payment` to
the same row, with no event in between. This is the amended form of the
no-overlap claim: the unrestricted machine (`step`) violates it, because
two overlapping `waiting_payment` rows can both be approved before either
payment lands. -/
inductive AtomicEvent where
  /-- `callback_datepick` in the check-out stage (session only) -/
  | checkoutSelect (uid : ℤ) (cand : ℤ)
  /-- `callback_confirm_booking` -/
  | confirmBooking (uid : ℤ) (res : ℕ) (ci co : ℤ) (invoiceOk : Bool)
  /-- a pre-checkout validation whose payment never lands -/
  | preCheckout (id : ℕ) (total : ℤ)
  /-- pre-checkout approval followed at once by the successful payment -/
  | paySuccess (id : ℕ) (total : ℤ)
  /-- `callback_cancel_my_booking` -/
  | cancelBooking (id : ℕ) (today : ℤ)

/-- The row update a `paySuccess` event performs: run
`handle_pre_checkout_query`; when the charge is approved, apply
`handle_successful_payment` at once, otherwise keep the handler's row. -/
def paySuccessUpdate (db : List BookingRec) (prices : ℕ → ℚ) (total : ℤ)
    (b : BookingRec) : BookingRec :=
  if (handle_pre_checkout_query db b (prices b.resource) total).ok then
    (handle_successful_payment
      ((handle_pre_checkout_query db b (prices b.resource) total).booking) total).booking
  else (handle_pre_checkout_query db b (prices b.resource) total).booking

/-- Effect of one atomic event on the `Booking` table. -/
def stepA (prices : ℕ → ℚ) (db : List BookingRec) : AtomicEvent → List BookingRec
  | .checkoutSelect _ _ => db
  | .confirmBooking uid res ci co invoiceOk =>
    db ++ [(callback_confirm_booking uid res (prices res) db.length ci co invoiceOk).1]
  | .preCheckout id total =>
    updateRow db id (fun b => (handle_pre_checkout_query db b (prices b.resource) total).booking)
  | .paySuccess id total =>
    updateRow db id (paySuccessUpdate db prices total)
  | .cancelBooking id today =>
    updateRow db id (fun b => (callback_cancel_my_booking today b).1)

/-- The table after a sequence of atomic events, starting empty. -/
def runA (prices : ℕ → ℚ) (evs : List AtomicEvent) : List BookingRec :=
  evs.foldl (stepA prices) []

/-- The inductive invariant of the atomic machine: ids are the list
positions, confirmed rows carry both dates, and confirmed rows of any one
resource are pairwise non-overlapping. -/
def Inv (db : List BookingRec) : Prop :=
  IdsIndexed db ∧ ConfDatesSet db ∧ ConfDisjoint db

end Booking

namespace Booking

theorem pc_booking_eq_or (db : List BookingRec) (b : BookingRec) (price : ℚ) (total : ℤ) :
    (handle_pre_checkout_query db b price total).booking = b ∨
      (handle_pre_checkout_query db b price total).booking = { b with status := "failed" } ∨
      (handle_pre_checkout_query db b price total).booking = { b with status := "conflict" } := by
  unfold handle_pre_checkout_query
  split
  · exact Or.inl rfl
  · split
    · exact Or.inr (Or.inl rfl)
    · exact Or.inr (Or.inl rfl)
    · split
      · exact Or.inr (Or.inr rfl)
      · split
        · exact Or.inl rfl
        · exact Or.inl rfl

theorem pc_booking_fields (db : List BookingRec) (b : BookingRec) (price : ℚ) (total : ℤ) :
    ((handle_pre_checkout_query db b price total).booking).id = b.id ∧
      ((handle_pre_checkout_query db b price total).booking).resource = b.resource ∧
      ((handle_pre_checkout_query db b price total).booking).check_in = b.check_in ∧
      ((handle_pre_checkout_query db b price total).booking).check_out = b.check_out := by
  rcases pc_booking_eq_or db b price total with h | h | h <;> rw [h] <;> exact ⟨rfl, rfl, rfl, rfl⟩

theorem pc_booking_confirmed (db : List BookingRec) (b : BookingRec) (price : ℚ) (total : ℤ)
    (h : ((handle_pre_checkout_query db b price total).booking).status = "confirmed") :
    (handle_pre_checkout_query db b price total).booking = b := by
  rcases pc_booking_eq_or db b price total with h2 | h2 | h2
  · exact h2
  · rw [h2] at h
    exact absurd h (show ¬("failed" = "confirmed") by decide)
  · rw [h2] at h
    exact absurd h (show ¬("conflict" = "confirmed") by decide)

theorem pc_ok_outcome (db : List BookingRec) (b : BookingRec) (price : ℚ) (total : ℤ) :
    handle_pre_checkout_query db b price total = ⟨true, b, false⟩ ∨
      (handle_pre_checkout_query db b price total).ok = false := by
  unfold handle_pre_checkout_query
  split
  · exact Or.inr rfl
  · split
    · exact Or.inr rfl
    · exact Or.inr rfl
    · split
      · exact Or.inr rfl
      · split
        · exact Or.inr rfl
        · exact Or.inl rfl

theorem pc_ok_spec (db : List BookingRec) (b : BookingRec) (price : ℚ) (total : ℤ)
    (h : (handle_pre_checkout_query db b price total).ok = true) :
    (handle_pre_checkout_query db b price total).booking = b ∧
      b.status = "waiting_payment" ∧
      (∃ ci co, b.check_in = some ci ∧ b.check_out = some co ∧ total = expectedAmount ci co price) ∧
      db.any (sqlConflict b) = false := by
  have hbk : (handle_pre_checkout_query db b price total).booking = b := by
    rcases pc_ok_outcome db b price total with he | he
    · rw [he]
    · rw [he] at h
      exact Bool.noConfusion h
  refine ⟨hbk, ?_⟩
  unfold handle_pre_checkout_query at h
  split at h
  · exact Bool.noConfusion h
  · next hstat =>
    split at h
    · exact Bool.noConfusion h
    · exact Bool.noConfusion h
    · next ci co hci hco =>
      split at h
      · exact Bool.noConfusion h
      · next hconf =>
        split at h
        · exact Bool.noConfusion h
        · next htot =>
          refine ⟨?_, ⟨ci, co, hci, hco, ?_⟩, ?_⟩
          · simpa using hstat
          · simpa using htot
          · simpa using hconf

theorem sp_booking_fields (b : BookingRec) (total : ℤ) :
    ((handle_successful_payment b total).booking).id = b.id ∧
      ((handle_successful_payment b total).booking).resource = b.resource ∧
      ((handle_successful_payment b total).booking).check_in = b.check_in ∧
      ((handle_successful_payment b total).booking).check_out = b.check_out ∧
      ((handle_successful_payment b total).booking).status = "confirmed" := by
  unfold handle_successful_payment
  split
  · next hc => exact ⟨rfl, rfl, rfl, rfl, by simpa using hc⟩
  · exact ⟨rfl, rfl, rfl, rfl, rfl⟩

theorem cancel_booking_eq_or (today : ℤ) (b : BookingRec) :
    (callback_cancel_my_booking today b).1 = b ∨
      (callback_cancel_my_booking today b).1 = { b with status := "cancelled" } := by
  unfold callback_cancel_my_booking
  split
  · exact Or.inl rfl
  · split
    · exact Or.inl rfl
    · exact Or.inr rfl

theorem cancel_booking_confirmed (today : ℤ) (b : BookingRec)
    (h : ((callback_cancel_my_booking today b).1).status = "confirmed") :
    (callback_cancel_my_booking today b).1 = b := by
  rcases cancel_booking_eq_or today b with h2 | h2
  · exact h2
  · rw [h2] at h
    exact absurd h (show ¬("cancelled" = "confirmed") by decide)

theorem overlaps_congr (b b' c c' : BookingRec)
    (h1 : b'.resource = b.resource) (h2 : b'.check_in = b.check_in)
    (h3 : b'.check_out = b.check_out) (h4 : c'.resource = c.resource)
    (h5 : c'.check_in = c.check_in) (h6 : c'.check_out = c.check_out) :
    overlaps b' c' ↔ overlaps b c := by
  unfold overlaps projRange
  rw [h1, h2, h3, h4, h5, h6]

theorem overlaps_comm (b c : BookingRec) : overlaps b c ↔ overlaps c b := by
  unfold overlaps
  constructor
  · rintro ⟨hres, rb, rc, hb, hc, h1, h2⟩
    exact ⟨hres.symm, rc, rb, hc, hb, h2, h1⟩
  · rintro ⟨hres, rb, rc, hb, hc, h1, h2⟩
    exact ⟨hres.symm, rc, rb, hc, hb, h2, h1⟩

theorem not_overlaps_of_sqlConflict_false (b c : BookingRec)
    (hsql : sqlConflict b c = false) (hid : c.id ≠ b.id) (hcstat : c.status = "confirmed")
    (hbci : b.check_in = some ci) (hbco : b.check_out = some co)
    (hcs : c.check_in = some s) (hce : c.check_out = some e) :
    ¬ overlaps b c := by
  rintro ⟨hres, rb, rc, hprb, hprc, h1, h2⟩
  unfold projRange at hprb hprc
  rw [hbci, hbco] at hprb
  rw [hcs, hce] at hprc
  simp only [Option.getD_some] at hprb hprc
  injection hprb with hprb
  injection hprc with hprc
  have hrb1 : rb.1 = ci := by rw [← hprb]
  have hrb2 : rb.2 = co := by rw [← hprb]
  have hrc1 : rc.1 = s := by rw [← hprc]
  have hrc2 : rc.2 = e := by rw [← hprc]
  rw [hrb1, hrc2] at h1
  rw [hrc1, hrb2] at h2
  have htrue : sqlConflict b c = true := by
    unfold sqlConflict
    rw [hcs, hce, hbci, hbco]
    simp only [Bool.and_eq_true, beq_iff_eq, bne_iff_ne, ne_eq, decide_eq_true_eq]
    exact ⟨⟨⟨⟨hres.symm, hid⟩, hcstat⟩, h2⟩, h1⟩
  rw [htrue] at hsql
  exact Bool.noConfusion hsql

theorem updateRow_length (db : List BookingRec) (k : ℕ) (u : BookingRec → BookingRec) :
    (updateRow db k u).length = db.length := by
  unfold updateRow
  exact List.length_map db _

theorem inv_nil : Inv [] := by
  refine ⟨?_, ?_, ?_⟩
  · intro i h
    exact absurd h (by simp)
  · intro b hb
    exact absurd hb (by simp)
  · exact List.Pairwise.nil

theorem inv_updateRow_fix (db : List BookingRec) (k : ℕ) (u : BookingRec → BookingRec)
    (hid : ∀ b, (u b).id = b.id)
    (hfix : ∀ b ∈ db, (u b).status = "confirmed" → u b = b)
    (hinv : Inv db) : Inv (updateRow db k u) := by
  obtain ⟨hids, hds, hdisj⟩ := hinv
  have hg_id : ∀ b, (if b.id == k then u b else b).id = b.id := by
    intro b
    split
    · exact hid b
    · rfl
  have hg_fix : ∀ b ∈ db, (if b.id == k then u b else b).status = "confirmed" →
      (if b.id == k then u b else b) = b := by
    intro b hb hc
    by_cases hbk : (b.id == k) = true
    · rw [if_pos hbk] at hc ⊢
      exact hfix b hb hc
    · rw [if_neg hbk]
  refine ⟨?_, ?_, ?_⟩
  · intro i h
    have hlen : i < db.length := by
      rw [updateRow_length] at h
      exact h
    unfold updateRow
    rw [List.getElem_map]
    rw [hg_id]
    exact hids i hlen
  · intro b' hb' hc
    unfold updateRow at hb'
    obtain ⟨b, hb, hgb⟩ := List.mem_map.mp hb'
    rw [← hgb] at hc ⊢
    have heq := hg_fix b hb hc
    rw [heq] at hc ⊢
    exact hds b hb hc
  · unfold ConfDisjoint updateRow
    rw [List.pairwise_map]
    refine List.Pairwise.imp_of_mem ?_ hdisj
    intro a c ha hc hR hca hcc
    have heqa := hg_fix a ha hca
    have heqc := hg_fix c hc hcc
    rw [heqa] at hca ⊢
    rw [heqc] at hcc ⊢
    exact hR hca hcc

theorem inv_append_new (db : List BookingRec) (r : BookingRec)
    (hid : r.id = db.length) (hst : r.status ≠ "confirmed") (hinv : Inv db) :
    Inv (db ++ [r]) := by
  obtain ⟨hids, hds, hdisj⟩ := hinv
  refine ⟨?_, ?_, ?_⟩
  · intro i h
    rw [List.length_append, List.length_singleton] at h
    by_cases hi : i < db.length
    · rw [List.getElem_append_left hi]
      exact hids i hi
    · have : i = db.length := by omega
      subst this
      simp only [List.getElem_concat_length]
      exact hid
  · intro b hb hc
    rcases List.mem_append.mp hb with h | h
    · exact hds b h hc
    · rw [List.mem_singleton.mp h] at hc
      exact absurd hc hst
  · unfold ConfDisjoint
    rw [List.pairwise_append]
    refine ⟨hdisj, List.pairwise_singleton _ _, ?_⟩
    intro a _ c hc _ hcc
    rw [List.mem_singleton.mp hc] at hcc
    exact absurd hcc hst

theorem paySuccessUpdate_fields (db : List BookingRec) (prices : ℕ → ℚ) (total : ℤ)
    (b : BookingRec) :
    (paySuccessUpdate db prices total b).id = b.id ∧
      (paySuccessUpdate db prices total b).resource = b.resource ∧
      (paySuccessUpdate db prices total b).check_in = b.check_in ∧
      (paySuccessUpdate db prices total b).check_out = b.check_out := by
  unfold paySuccessUpdate
  obtain ⟨p1, p2, p3, p4⟩ := pc_booking_fields db b (prices b.resource) total
  split
  · obtain ⟨s1, s2, s3, s4, _⟩ :=
      sp_booking_fields ((handle_pre_checkout_query db b (prices b.resource) total).booking) total
    exact ⟨s1.trans p1, s2.trans p2, s3.trans p3, s4.trans p4⟩
  · exact ⟨p1, p2, p3, p4⟩

theorem paySuccessUpdate_dichotomy (db : List BookingRec) (prices : ℕ → ℚ) (total : ℤ)
    (b : BookingRec)
    (hc : (paySuccessUpdate db prices total b).status = "confirmed") :
    paySuccessUpdate db prices total b = b ∨
      ((∃ ci co, b.check_in = some ci ∧ b.check_out = some co) ∧
        db.any (sqlConflict b) = false) := by
  unfold paySuccessUpdate at hc ⊢
  by_cases hok : (handle_pre_checkout_query db b (prices b.resource) total).ok = true
  · obtain ⟨_, _, ⟨ci, co, hci, hco, _⟩, hconf⟩ :=
      pc_ok_spec db b (prices b.resource) total hok
    exact Or.inr ⟨⟨ci, co, hci, hco⟩, hconf⟩
  · rw [if_neg hok] at hc ⊢
    exact Or.inl (pc_booking_confirmed db b (prices b.resource) total hc)

theorem inv_paySuccess (prices : ℕ → ℚ) (db : List BookingRec) (k : ℕ) (total : ℤ)
    (hinv : Inv db) : Inv (updateRow db k (paySuccessUpdate db prices total)) := by
  obtain ⟨hids, hds, hdisj⟩ := hinv
  have hg_id : ∀ b, ((if b.id == k then paySuccessUpdate db prices total b else b)).id = b.id := by
    intro b
    split
    · exact (paySuccessUpdate_fields db prices total b).1
    · rfl
  refine ⟨?_, ?_, ?_⟩
  · intro i h
    have hlen : i < db.length := by
      rw [updateRow_length] at h
      exact h
    unfold updateRow
    rw [List.getElem_map, hg_id]
    exact hids i hlen
  · intro b' hb' hc
    unfold updateRow at hb'
    obtain ⟨b, hb, hgb⟩ := List.mem_map.mp hb'
    rw [← hgb] at hc ⊢
    by_cases hbk : (b.id == k) = true
    · rw [if_pos hbk] at hc ⊢
      obtain ⟨_, _, f3, f4⟩ := paySuccessUpdate_fields db prices total b
      rcases paySuccessUpdate_dichotomy db prices total b hc with heq | ⟨⟨ci, co, hci, hco⟩, _⟩
      · rw [heq] at hc ⊢
        exact hds b hb hc
      · exact ⟨⟨ci, f3.trans hci⟩, ⟨co, f4.trans hco⟩⟩
    · rw [if_neg hbk] at hc ⊢
      exact hds b hb hc
  · unfold ConfDisjoint updateRow
    rw [List.pairwise_iff_getElem]
    intro i j hi hj hij
    rw [List.length_map] at hi hj
    rw [List.getElem_map, List.getElem_map]
    have hidi : db[i].id = i := hids i hi
    have hidj : db[j].id = j := hids j hj
    have hR := List.pairwise_iff_getElem.mp hdisj i j hi hj hij
    have hmem_i : db[i] ∈ db := List.getElem_mem hi
    have hmem_j : db[j] ∈ db := List.getElem_mem hj
    intro hca hcc hov
    by_cases hik : (db[i].id == k) = true
    · have hjk : ¬((db[j].id == k) = true) := by
        rw [hidi] at hik
        rw [hidj]
        simp only [beq_iff_eq] at hik ⊢
        omega
      rw [if_pos hik] at hca hov
      rw [if_neg hjk] at hcc hov
      obtain ⟨_, f2, f3, f4⟩ := paySuccessUpdate_fields db prices total db[i]
      have hov2 : overlaps db[i] db[j] :=
        (overlaps_congr db[i] _ db[j] db[j] f2 f3 f4 rfl rfl rfl).mp hov
      rcases paySuccessUpdate_dichotomy db prices total db[i] hca with heq | hnew
      · rw [heq] at hca
        exact hR hca hcc hov2
      · obtain ⟨⟨ci, co, hci, hco⟩, hconf⟩ := hnew
        obtain ⟨⟨s, hcs⟩, ⟨e, hce⟩⟩ := hds db[j] hmem_j hcc
        have hsql : sqlConflict db[i] db[j] = false := by
          rw [List.any_eq_false] at hconf
          simpa using hconf db[j] hmem_j
        have hidne : db[j].id ≠ db[i].id := by
          rw [hidi, hidj]
          omega
        exact not_overlaps_of_sqlConflict_false db[i] db[j] hsql hidne hcc hci hco hcs hce hov2
    · rw [if_neg hik] at hca hov
      by_cases hjk : (db[j].id == k) = true
      · rw [if_pos hjk] at hcc hov
        obtain ⟨_, f2, f3, f4⟩ := paySuccessUpdate_fields db prices total db[j]
        have hov2 : overlaps db[i] db[j] :=
          (overlaps_congr db[i] db[i] db[j] _ rfl rfl rfl f2 f3 f4).mp hov
        rcases paySuccessUpdate_dichotomy db prices total db[j] hcc with heq | hnew
        · rw [heq] at hcc
          exact hR hca hcc hov2
        · obtain ⟨⟨ci, co, hci, hco⟩, hconf⟩ := hnew
          obtain ⟨⟨s, hcs⟩, ⟨e, hce⟩⟩ := hds db[i] hmem_i hca
          have hsql : sqlConflict db[j] db[i] = false := by
            rw [List.any_eq_false] at hconf
            simpa using hconf db[i] hmem_i
          have hidne : db[i].id ≠ db[j].id := by
            rw [hidi, hidj]
            omega
          exact not_overlaps_of_sqlConflict_false db[j] db[i] hsql hidne hca hci hco hcs hce
            ((overlaps_comm db[i] db[j]).mp hov2)
      · rw [if_neg hjk] at hcc hov
        exact hR hca hcc hov

theorem confirm_row_spec (uid : ℤ) (resId : ℕ) (price : ℚ) (newId : ℕ) (ci co : ℤ)
    (invoiceOk : Bool) :
    ((callback_confirm_booking uid resId price newId ci co invoiceOk).1).id = newId ∧
      ((callback_confirm_booking uid resId price newId ci co invoiceOk).1).status ≠ "confirmed" := by
  unfold callback_confirm_booking
  cases invoiceOk
  · exact ⟨rfl, show ("failed" : String) ≠ "confirmed" by decide⟩
  · exact ⟨rfl, show ("waiting_payment" : String) ≠ "confirmed" by decide⟩

/-- Every atomic handler event preserves the invariant. -/
theorem inv_stepA (prices : ℕ → ℚ) (db : List BookingRec) (e : AtomicEvent)
    (hinv : Inv db) : Inv (stepA prices db e) := by
  cases e with
  | checkoutSelect uid cand => exact hinv
  | confirmBooking uid res ci co invoiceOk =>
    obtain ⟨h1, h2⟩ := confirm_row_spec uid res (prices res) db.length ci co invoiceOk
    exact inv_append_new db _ h1 h2 hinv
  | preCheckout id total =>
    refine inv_updateRow_fix db id _ ?_ ?_ hinv
    · intro b
      exact (pc_booking_fields db b (prices b.resource) total).1
    · intro b _ hc
      exact pc_booking_confirmed db b (prices b.resource) total hc
  | paySuccess id total => exact inv_paySuccess prices db id total hinv
  | cancelBooking id today =>
    refine inv_updateRow_fix db id _ ?_ ?_ hinv
    · intro b
      rcases cancel_booking_eq_or today b with h | h <;> rw [h]
    · intro b _ hc
      exact cancel_booking_confirmed today b hc

/-- The invariant holds in every state the atomic machine can reach from
the empty table. -/
theorem inv_runA (prices : ℕ → ℚ) (evs : List AtomicEvent) : Inv (runA prices evs) := by
  unfold runA
  have : ∀ (db : List BookingRec), Inv db → Inv (evs.foldl (stepA prices) db) := by
    induction evs with
    | nil => intro db h; exact h
    | cons e rest ih =>
      intro db h
      exact ih (stepA prices db e) (inv_stepA prices db e h)
  exact this [] inv_nil

end Booking

namespace Recon

/-- A raised Python exception, as `ReconnectMixin` inspects it: its class
and `str(exc)`. -/
structure PyExc where
  cls : String
  msg : List Char
deriving DecidableEq

/-- Python `str.lower` on an ASCII character. -/
def toLowerChar (c : Char) : Char :=
  if 'A' ≤ c ∧ c ≤ 'Z' then Char.ofNat (c.toNat + 32) else c

/-- Python `str.lower` (ASCII suffices for the fixed fragments). -/
def lowerStr (s : List Char) : List Char := s.map toLowerChar

/-- Whether `p` is a prefix of `s` (character-wise). -/
def startsWithL : List Char → List Char → Bool
  | [], _ => true
  | _ :: _, [] => false
  | p :: ps, c :: cs => p == c && startsWithL ps cs

/-- Python's substring test `pat in s`. -/
def containsSub (pat : List Char) : List Char → Bool
  | [] => startsWithL pat []
  | c :: t => startsWithL pat (c :: t) || containsSub pat t

/-- `ReconnectMixin.reconnect_errors` (utils.py 14-20): the fixed
transient-error signatures, `(exception class, message fragment)`. -/
def reconnect_errors : List (String × String) :=
  [("OperationalError", "2006"), ("OperationalError", "2013"),
    ("OperationalError", "2003"), ("OperationalError", "2014"),
    ("OperationalError", "MySQL Connection not available.")]

/-- The lowered fragments registered for an exception class
(`self._reconnect_errors[exc_class]` built in `__init__`, utils.py 25-28);
empty when the class is not in the mapping. -/
def reconnectFragments (cls : String) : List (List Char) :=
  (reconnect_errors.filter (fun p => p.1 == cls)).map (fun p => lowerStr p.2.data)

/-- The transient test of `execute_sql` (utils.py 34-43): the class is
registered and some registered fragment occurs in the lowered message
(a class with no registered fragment re-raises, which coincides with
`any` over an empty fragment list). -/
def isTransient (e : PyExc) : Bool :=
  (reconnectFragments e.cls).any (fun f => containsSub f (lowerStr e.msg))

/-- `ReconnectMixin.execute_sql` (utils.py 30-55) at recursion depth `tr`.
The underlying store is an oracle giving, per execution attempt, either a
result or a raised exception. Returns the final result together with the
arguments of the `time.sleep(tr / 10)` calls performed, in order (entry
`t` stands for a sleep of `t/10` seconds). A transient failure closes and
reopens the connection, then: at `tr >= 20` the exception is re-raised;
otherwise the handler sleeps and retries with `tr + 1`. A non-transient
failure is re-raised at once. -/
def execute_sql_aux {V : Type} (oracle : ℕ → Except PyExc V) (tr : ℕ) :
    Except PyExc V × List ℕ :=
  match oracle tr with
  | .ok v => (.ok v, [])
  | .error e =>
    if isTransient e then
      if 20 ≤ tr then (.error e, [])
      else
        let r := execute_sql_aux oracle (tr + 1)
        (r.1, tr :: r.2)
    else (.error e, [])
termination_by 20 - tr
decreasing_by omega

/-- `execute_sql` as called by peewee: depth 0. -/
def execute_sql {V : Type} (oracle : ℕ → Except PyExc V) : Except PyExc V × List ℕ :=
  execute_sql_aux oracle 0

theorem execute_sql_aux_sleeps {V : Type} (oracle : ℕ → Except PyExc V) :
    ∀ (d tr : ℕ), 20 - tr ≤ d →
      (execute_sql_aux oracle tr).2 = List.range' tr ((execute_sql_aux oracle tr).2.length) ∧
        (execute_sql_aux oracle tr).2.length ≤ 20 - tr := by
  intro d
  induction d with
  | zero =>
    intro tr htr
    rw [execute_sql_aux]
    match oracle tr with
    | .ok v => exact ⟨rfl, by simp⟩
    | .error e =>
      simp only
      split
      · rw [if_pos (by omega)]
        exact ⟨rfl, by simp⟩
      · exact ⟨rfl, by simp⟩
  | succ d ih =>
    intro tr htr
    rw [execute_sql_aux]
    match oracle tr with
    | .ok v => exact ⟨rfl, by simp⟩
    | .error e =>
      simp only
      split
      · by_cases h20 : 20 ≤ tr
        · rw [if_pos h20]
          exact ⟨rfl, by simp⟩
        · rw [if_neg h20]
          obtain ⟨ih1, ih2⟩ := ih (tr + 1) (by omega)
          simp only [List.length_cons]
          constructor
          · rw [List.range'_succ]
            rw [← ih1]
          · omega
      · exact ⟨rfl, by simp⟩

theorem execute_sql_aux_exhaust {V : Type} (oracle : ℕ → Except PyExc V) :
    ∀ (d tr : ℕ), 20 - tr ≤ d → tr ≤ 20 →
      (∀ i, tr ≤ i → i ≤ 20 → ∃ e, oracle i = .error e ∧ isTransient e = true) →
      ∃ e, oracle 20 = .error e ∧
        execute_sql_aux oracle tr = (.error e, List.range' tr (20 - tr)) := by
  intro d
  induction d with
  | zero =>
    intro tr htr h20 hall
    have htr20 : tr = 20 := by omega
    subst htr20
    obtain ⟨e, he, htrans⟩ := hall 20 (by omega) (by omega)
    refine ⟨e, he, ?_⟩
    rw [execute_sql_aux, he]
    simp only [htrans, if_pos, Nat.sub_self, List.range']
    rw [if_pos (by omega : (20 : ℕ) ≤ 20)]
  | succ d ih =>
    intro tr htr h20 hall
    by_cases heq : tr = 20
    · subst heq
      obtain ⟨e, he, htrans⟩ := hall 20 (by omega) (by omega)
      refine ⟨e, he, ?_⟩
      rw [execute_sql_aux, he]
      simp only [htrans, if_pos, Nat.sub_self, List.range']
      rw [if_pos (by omega : (20 : ℕ) ≤ 20)]
    · obtain ⟨e', he', htrans'⟩ := hall tr (by omega) (by omega)
      obtain ⟨e, he, hrec⟩ := ih (tr + 1) (by omega) (by omega)
        (fun i hi1 hi2 => hall i (by omega) hi2)
      refine ⟨e, he, ?_⟩
      rw [execute_sql_aux, he']
      simp only [htrans', if_pos]
      rw [if_neg (by omega : ¬(20 ≤ tr))]
      rw [hrec]
      have hn : 20 - tr = (20 - (tr + 1)) + 1 := by omega
      rw [hn, List.range'_succ]

theorem execute_sql_aux_nontransient {V : Type} (oracle : ℕ → Except PyExc V) :
    ∀ (d tr k : ℕ), k - tr ≤ d → tr ≤ k → k ≤ 20 →
      (∀ i, tr ≤ i → i < k → ∃ e, oracle i = .error e ∧ isTransient e = true) →
      ∀ e, oracle k = .error e → isTransient e = false →
      execute_sql_aux oracle tr = (.error e, List.range' tr (k - tr)) := by
  intro d
  induction d with
  | zero =>
    intro tr k hd htk hk20 hpre e he htrans
    have htrk : tr = k := by omega
    subst htrk
    rw [execute_sql_aux, he]
    simp only [htrans, Nat.sub_self, List.range']
    rw [if_neg (by simp [htrans])]
  | succ d ih =>
    intro tr k hd htk hk20 hpre e he htrans
    by_cases heq : tr = k
    · subst heq
      rw [execute_sql_aux, he]
      simp only [htrans, Nat.sub_self, List.range']
      rw [if_neg (by simp [htrans])]
    · obtain ⟨e', he', htrans'⟩ := hpre tr (by omega) (by omega)
      have hrec := ih (tr + 1) k (by omega) (by omega) hk20
        (fun i hi1 hi2 => hpre i (by omega) hi2) e he htrans
      rw [execute_sql_aux, he']
      simp only [htrans', if_pos]
      rw [if_neg (by omega : ¬(20 ≤ tr))]
      rw [hrec]
      have hn : k - tr = (k - (tr + 1)) + 1 := by omega
      rw [hn, List.range'_succ]

end Recon

namespace StateFile

/-- The ASCII digit character for `n ≤ 9`. -/
def digitChar (n : ℕ) : Char := Char.ofNat (48 + n)

/-- Numeric value of an ASCII digit character. -/
def digitVal (c : Char) : ℕ := c.toNat - 48

/-- Whether `c` is an ASCII digit. -/
def isDigitChar (c : Char) : Bool := decide (48 ≤ c.toNat) && decide (c.toNat ≤ 57)

/-- Zero-padded fixed-width decimal rendering, most significant digit
first, as `datetime.isoformat` renders its numeric fields. -/
def printPad : ℕ → ℕ → List Char
  | 0, _ => []
  | w + 1, n => digitChar (n / 10 ^ w) :: printPad w (n % 10 ^ w)

/-- Consume exactly `w` digit characters, accumulating their value onto
`a`; returns the value and the remaining characters. -/
def parseFixed : ℕ → ℕ → List Char → Option (ℕ × List Char)
  | 0, a, cs => some (a, cs)
  | _ + 1, _, [] => none
  | w + 1, a, c :: cs => if isDigitChar c then parseFixed w (a * 10 + digitVal c) cs else none

/-- Consume one expected character. -/
def expectChar (c : Char) : List Char → Option (List Char)
  | [] => none
  | d :: cs => if d == c then some cs else none

theorem digitChar_toNat (d : ℕ) (h : d ≤ 9) : (digitChar d).toNat = 48 + d := by
  interval_cases d <;> decide

theorem isDigitChar_digitChar (d : ℕ) (h : d ≤ 9) : isDigitChar (digitChar d) = true := by
  interval_cases d <;> decide

theorem digitVal_digitChar (d : ℕ) (h : d ≤ 9) : digitVal (digitChar d) = d := by
  interval_cases d <;> decide

theorem parseFixed_printPad :
    ∀ (w a n : ℕ), n < 10 ^ w →
      ∀ rest, parseFixed w a (printPad w n ++ rest) = some (a * 10 ^ w + n, rest) := by
  intro w
  induction w with
  | zero =>
    intro a n hn rest
    have hn0 : n = 0 := by omega
    subst hn0
    simp [printPad, parseFixed]
  | succ w ih =>
    intro a n hn rest
    have hpow : 0 < 10 ^ w := Nat.pos_pow_of_pos w (by omega)
    have hdig : n / 10 ^ w ≤ 9 := by
      have : n / 10 ^ w < 10 := by
        apply Nat.div_lt_of_lt_mul
        rw [← pow_succ]
        exact hn
      omega
    have hmod : n % 10 ^ w < 10 ^ w := Nat.mod_lt n hpow
    rw [printPad]
    rw [List.cons_append]
    rw [parseFixed]
    rw [if_pos (isDigitChar_digitChar _ hdig)]
    rw [digitVal_digitChar _ hdig]
    rw [ih (a * 10 + n / 10 ^ w) (n % 10 ^ w) hmod rest]
    congr 2
    calc (a * 10 + n / 10 ^ w) * 10 ^ w + n % 10 ^ w
        = a * (10 ^ w * 10) + (10 ^ w * (n / 10 ^ w) + n % 10 ^ w) := by ring
      _ = a * (10 ^ w * 10) + n := by rw [Nat.div_add_mod]
      _ = a * 10 ^ (w + 1) + n := by rw [pow_succ]

/-- A Python `datetime.date`, as stored in a session's
`check_in`/`check_out`. -/
structure PyDate where
  year : ℕ
  month : ℕ
  day : ℕ
deriving DecidableEq

/-- A Python `datetime.datetime`, as stored in a session's `created`. -/
structure PyDateTime where
  year : ℕ
  month : ℕ
  day : ℕ
  hour : ℕ
  minute : ℕ
  second : ℕ
  microsecond : ℕ
deriving DecidableEq

/-- Field bounds of a representable `datetime.date` (Python years run
1..9999; months/days fit their two digits). -/
def validDate (d : PyDate) : Bool :=
  decide (d.year < 10000) && decide (d.month < 100) && decide (d.day < 100)

/-- Field bounds of a representable `datetime.datetime`. -/
def validDateTime (t : PyDateTime) : Bool :=
  decide (t.year < 10000) && decide (t.month < 100) && decide (t.day < 100) &&
    decide (t.hour < 100) && decide (t.minute < 100) && decide (t.second < 100) &&
    decide (t.microsecond < 1000000)

/-- `date.isoformat()`: `YYYY-MM-DD`. -/
def isoDate (d : PyDate) : List Char :=
  printPad 4 d.year ++ '-' :: (printPad 2 d.month ++ '-' :: printPad 2 d.day)

/-- `datetime.isoformat()`: `YYYY-MM-DDTHH:MM:SS`, with `.ffffff` appended
exactly when the microsecond field is non-zero. -/
def isoDateTime (t : PyDateTime) : List Char :=
  printPad 4 t.year ++ '-' :: (printPad 2 t.month ++ '-' :: (printPad 2 t.day ++
    'T' :: (printPad 2 t.hour ++ ':' :: (printPad 2 t.minute ++ ':' :: (printPad 2 t.second ++
      (if t.microsecond == 0 then [] else '.' :: printPad 6 t.microsecond))))))

/-- Python's `datetime.fromisoformat`, on the grammar `datetime.isoformat`
and `date.isoformat` produce (`load_user_booking_state` only ever feeds it
strings written by `save_user_booking_state`; on anything else the
handler's `except` keeps the raw value, modelled by the `none` results).
A bare date parses with a zero time, as in Python. -/
def fromisoformat (s : List Char) : Option PyDateTime := do
  let (y, s1) ← parseFixed 4 0 s
  let s2 ← expectChar '-' s1
  let (mo, s3) ← parseFixed 2 0 s2
  let s4 ← expectChar '-' s3
  let (dy, s5) ← parseFixed 2 0 s4
  match s5 with
  | [] => some ⟨y, mo, dy, 0, 0, 0, 0⟩
  | 'T' :: s6 => do
    let (h, s7) ← parseFixed 2 0 s6
    let s8 ← expectChar ':' s7
    let (mi, s9) ← parseFixed 2 0 s8
    let s10 ← expectChar ':' s9
    let (se, s11) ← parseFixed 2 0 s10
    match s11 with
    | [] => some ⟨y, mo, dy, h, mi, se, 0⟩
    | '.' :: s12 => do
      let (us, s13) ← parseFixed 6 0 s12
      if s13.isEmpty then some ⟨y, mo, dy, h, mi, se, us⟩ else none
    | _ => none
  | _ => none

set_option maxHeartbeats 2000000 in
theorem fromisoformat_isoDate (d : PyDate) (h : validDate d = true) :
    fromisoformat (isoDate d) = some ⟨d.year, d.month, d.day, 0, 0, 0, 0⟩ := by
  have hy : d.year < 10 ^ 4 := by
    simp only [validDate, Bool.and_eq_true, decide_eq_true_eq] at h
    omega
  have hm : d.month < 10 ^ 2 := by
    simp only [validDate, Bool.and_eq_true, decide_eq_true_eq] at h
    omega
  have hd : d.day < 10 ^ 2 := by
    simp only [validDate, Bool.and_eq_true, decide_eq_true_eq] at h
    omega
  have hday := parseFixed_printPad 2 0 d.day hd []
  rw [List.append_nil] at hday
  simp [fromisoformat, isoDate, parseFixed_printPad 4 0 d.year hy,
    parseFixed_printPad 2 0 d.month hm, hday, expectChar]

set_option maxHeartbeats 4000000 in
theorem fromisoformat_isoDateTime (t : PyDateTime) (h : validDateTime t = true) :
    fromisoformat (isoDateTime t) = some t := by
  simp only [validDateTime, Bool.and_eq_true, decide_eq_true_eq] at h
  have hy : t.year < 10 ^ 4 := by omega
  have hm : t.month < 10 ^ 2 := by omega
  have hd : t.day < 10 ^ 2 := by omega
  have hh : t.hour < 10 ^ 2 := by omega
  have hmi : t.minute < 10 ^ 2 := by omega
  have hs : t.second < 10 ^ 2 := by omega
  have hus : t.microsecond < 10 ^ 6 := by omega
  by_cases h0 : t.microsecond = 0
  · have hsec := parseFixed_printPad 2 0 t.second hs []
    rw [List.append_nil] at hsec
    simp [fromisoformat, isoDateTime, h0, parseFixed_printPad 4 0 t.year hy,
      parseFixed_printPad 2 0 t.month hm, parseFixed_printPad 2 0 t.day hd,
      parseFixed_printPad 2 0 t.hour hh, parseFixed_printPad 2 0 t.minute hmi,
      hsec, expectChar]
    rw [← h0]
  · have hus2 := parseFixed_printPad 6 0 t.microsecond hus []
    rw [List.append_nil] at hus2
    simp [fromisoformat, isoDateTime, h0, parseFixed_printPad 4 0 t.year hy,
      parseFixed_printPad 2 0 t.month hm, parseFixed_printPad 2 0 t.day hd,
      parseFixed_printPad 2 0 t.hour hh, parseFixed_printPad 2 0 t.minute hmi,
      parseFixed_printPad 2 0 t.second hs, hus2, expectChar]

/-- Python `str(n)` for a natural number, via a structural fuel argument
(the fuel only needs to exceed `n`, see `printNat`). -/
def printNatAux : ℕ → ℕ → List Char
  | 0, _ => []
  | fuel + 1, n =>
    if n < 10 then [digitChar n] else printNatAux fuel (n / 10) ++ [digitChar (n % 10)]

/-- Python `str(n)` for a natural number: decimal, no leading zeros. -/
def printNat (n : ℕ) : List Char := printNatAux (n + 1) n

/-- Python `int(s)` on an unsigned decimal string, accumulating onto `a`;
fails on the first non-digit (Python raises `ValueError`). -/
def parseNatAll (a : ℕ) : List Char → Option ℕ
  | [] => some a
  | c :: cs => if isDigitChar c then parseNatAll (a * 10 + digitVal c) cs else none

/-- `str(n)` for a Python integer (JSON object keys are written with
`str`; a negative integer gets a leading minus sign). -/
def printInt (n : ℤ) : List Char :=
  if n < 0 then '-' :: printNat n.natAbs else printNat n.toNat

/-- Python `int(s)` on the strings `str` produces: optional leading minus,
then decimal digits; the empty string fails. -/
def parseIntAll (s : List Char) : Option ℤ :=
  match s with
  | [] => none
  | c :: cs =>
    if c == '-' then (parseNatAll 0 cs).map (fun v => -(v : ℤ))
    else (parseNatAll 0 (c :: cs)).map (fun v => (v : ℤ))

theorem parseNatAll_append (a : ℕ) (xs ys : List Char) :
    parseNatAll a (xs ++ ys) =
      match parseNatAll a xs with
      | none => none
      | some v => parseNatAll v ys := by
  induction xs generalizing a with
  | nil => simp [parseNatAll]
  | cons c cs ih =>
    rw [List.cons_append]
    rw [parseNatAll]
    by_cases hc : isDigitChar c = true
    · rw [if_pos hc]
      rw [ih]
      rw [parseNatAll]
      rw [if_pos hc]
    · rw [if_neg hc]
      rw [parseNatAll]
      rw [if_neg hc]

theorem parseNatAll_printNatAux :
    ∀ (fuel n : ℕ), n < fuel → parseNatAll 0 (printNatAux fuel n) = some n := by
  intro fuel
  induction fuel with
  | zero => intro n hn; omega
  | succ fuel ih =>
    intro n hn
    rw [printNatAux]
    by_cases h10 : n < 10
    · rw [if_pos h10]
      rw [parseNatAll]
      rw [if_pos (isDigitChar_digitChar n (by omega))]
      rw [digitVal_digitChar n (by omega)]
      rw [parseNatAll]
      norm_num
    · rw [if_neg h10]
      rw [parseNatAll_append]
      have hdiv : n / 10 < fuel := by omega
      rw [ih (n / 10) hdiv]
      show parseNatAll (n / 10) [digitChar (n % 10)] = some n
      rw [parseNatAll]
      rw [if_pos (isDigitChar_digitChar _ (by omega))]
      rw [digitVal_digitChar _ (by omega)]
      rw [parseNatAll]
      have : n / 10 * 10 + n % 10 = n := by omega
      rw [this]

theorem parseNatAll_printNat (n : ℕ) : parseNatAll 0 (printNat n) = some n :=
  parseNatAll_printNatAux (n + 1) n (by omega)

theorem printNatAux_head_digit :
    ∀ (fuel n : ℕ), n < fuel → ∃ d rest, printNatAux fuel n = digitChar d :: rest ∧ d ≤ 9 := by
  intro fuel
  induction fuel with
  | zero => intro n hn; omega
  | succ fuel ih =>
    intro n hn
    rw [printNatAux]
    by_cases h10 : n < 10
    · rw [if_pos h10]
      exact ⟨n, [], rfl, by omega⟩
    · rw [if_neg h10]
      obtain ⟨d, rest, hpr, hd⟩ := ih (n / 10) (by omega)
      rw [hpr]
      exact ⟨d, rest ++ [digitChar (n % 10)], rfl, hd⟩

theorem digitChar_ne_minus (d : ℕ) (h : d ≤ 9) : (digitChar d == '-') = false := by
  interval_cases d <;> decide

theorem parseIntAll_printInt (n : ℤ) : parseIntAll (printInt n) = some n := by
  by_cases hneg : n < 0
  · rw [printInt, if_pos hneg]
    rw [parseIntAll]
    rw [if_pos (by decide)]
    rw [parseNatAll_printNat]
    exact congrArg some (show -((n.natAbs : ℤ)) = n by omega)
  · rw [printInt, if_neg hneg]
    obtain ⟨d, rest, hpr, hd⟩ := printNatAux_head_digit (n.toNat + 1) n.toNat (by omega)
    rw [printNat, hpr]
    rw [parseIntAll]
    rw [if_neg (by rw [digitChar_ne_minus d hd]; exact Bool.noConfusion)]
    rw [← hpr]
    rw [parseNatAll_printNatAux (n.toNat + 1) n.toNat (by omega)]
    exact congrArg some (show ((n.toNat : ℤ)) = n by omega)

/-- A value stored in a user's in-memory session dictionary. The Python
dictionaries hold dates, datetimes and JSON-representable scalars
(integers, strings, booleans, `None`). -/
inductive SVal where
  | date (d : PyDate)
  | dt (t : PyDateTime)
  | int (n : ℤ)
  | str (s : List Char)
  | bool (b : Bool)
  | null
deriving DecidableEq

/-- A JSON value as it sits in the state file written by `json.dump`. -/
inductive JVal where
  | str (s : List Char)
  | int (n : ℤ)
  | bool (b : Bool)
  | null
deriving DecidableEq

/-- One user's session dictionary: field name to value. -/
abbrev Session := List (String × SVal)

/-- The in-memory `user_booking_state`: user id to session. -/
abbrev SessionMap := List (ℤ × Session)

/-- The JSON tree of the state file: stringified user id to encoded
session (`json.dump`/`json.load` preserve this tree exactly). -/
abbrev StateJson := List (List Char × List (String × JVal))

/-- The per-value conversion of `save_user_booking_state` (main.py 60-64):
`datetime`/`date` values become their `isoformat()` strings, everything
else is preserved as-is. -/
def encodeVal : SVal → JVal
  | .date d => .str (isoDate d)
  | .dt t => .str (isoDateTime t)
  | .int n => .int n
  | .str s => .str s
  | .bool b => .bool b
  | .null => .null

/-- The keys `load_user_booking_state` converts back (main.py 103). -/
def specialKeys : List String := ["created", "check_in", "check_out"]

/-- The per-field restore of `load_user_booking_state` (main.py 102-111):
for `created`/`check_in`/`check_out` with a non-null value, try
`datetime.fromisoformat` and, for the two date keys, take `.date()`; any
failure (non-string value, unparsable string) leaves the value as-is; all
other keys pass through unchanged. -/
def decodeField (k : String) (j : JVal) : SVal :=
  if k ∈ specialKeys ∧ j ≠ JVal.null then
    match j with
    | .str s =>
      match fromisoformat s with
      | some t =>
        if k = "check_in" ∨ k = "check_out" then .date ⟨t.year, t.month, t.day⟩ else .dt t
      | none => .str s
    | .int n => .int n
    | .bool b => .bool b
    | .null => .null
  else
    match j with
    | .str s => .str s
    | .int n => .int n
    | .bool b => .bool b
    | .null => .null

/-- `save_user_booking_state` (main.py 34-66): encode every field of every
session and key the sessions by `str(user_id)` (`json.dump` writes integer
dictionary keys as strings). -/
def save_user_booking_state (m : SessionMap) : StateJson :=
  m.map (fun p => (printInt p.1, p.2.map (fun q => (q.1, encodeVal q.2))))

/-- `load_user_booking_state` (main.py 69-115): decode every field and
re-key by `int(user_id)`; an unparsable key raises, aborting the load. -/
def load_user_booking_state (f : StateJson) : Option SessionMap :=
  f.mapM (fun p =>
    (parseIntAll p.1).map (fun uid => (uid, p.2.map (fun q => (q.1, decodeField q.1 q.2)))))

/-- The typing discipline of the claim for one session field: `created`
holds a (representable) datetime, `check_in`/`check_out` hold null or a
(representable) date, every other field holds a JSON-representable
scalar. -/
def goodField (k : String) (v : SVal) : Bool :=
  if k = "created" then
    match v with
    | .dt t => validDateTime t
    | _ => false
  else if k = "check_in" ∨ k = "check_out" then
    match v with
    | .null => true
    | .date d => validDate d
    | _ => false
  else
    match v with
    | .date _ => false
    | .dt _ => false
    | _ => true

/-- The typing discipline of the claim for a whole session map. -/
def goodMap (m : SessionMap) : Bool :=
  m.all (fun p => p.2.all (fun q => goodField q.1 q.2))

theorem decode_encode (k : String) (v : SVal) (h : goodField k v = true) :
    decodeField k (encodeVal v) = v := by
  unfold goodField at h
  cases v with
  | null =>
    unfold encodeVal decodeField
    rw [if_neg (by simp)]
  | int n =>
    have hk : ¬(k ∈ specialKeys) := by
      by_cases h1 : k = "created"
      · rw [if_pos h1] at h
        exact Bool.noConfusion h
      · rw [if_neg h1] at h
        by_cases h2 : k = "check_in" ∨ k = "check_out"
        · rw [if_pos h2] at h
          exact Bool.noConfusion h
        · simp [specialKeys, h1]
          tauto
    unfold encodeVal decodeField
    rw [if_neg (by tauto)]
  | str s =>
    have hk : ¬(k ∈ specialKeys) := by
      by_cases h1 : k = "created"
      · rw [if_pos h1] at h
        exact Bool.noConfusion h
      · rw [if_neg h1] at h
        by_cases h2 : k = "check_in" ∨ k = "check_out"
        · rw [if_pos h2] at h
          exact Bool.noConfusion h
        · simp [specialKeys, h1]
          tauto
    unfold encodeVal decodeField
    rw [if_neg (by tauto)]
  | bool b =>
    have hk : ¬(k ∈ specialKeys) := by
      by_cases h1 : k = "created"
      · rw [if_pos h1] at h
        exact Bool.noConfusion h
      · rw [if_neg h1] at h
        by_cases h2 : k = "check_in" ∨ k = "check_out"
        · rw [if_pos h2] at h
          exact Bool.noConfusion h
        · simp [specialKeys, h1]
          tauto
    unfold encodeVal decodeField
    rw [if_neg (by tauto)]
  | date d =>
    have hk2 : k = "check_in" ∨ k = "check_out" := by
      by_cases h1 : k = "created"
      · rw [if_pos h1] at h
        exact Bool.noConfusion h
      · rw [if_neg h1] at h
        by_cases h2 : k = "check_in" ∨ k = "check_out"
        · exact h2
        · rw [if_neg h2] at h
          exact Bool.noConfusion h
    have hval : validDate d = true := by
      rcases hk2 with h2 | h2 <;> rw [h2] at h <;> simpa using h
    have hmem : k ∈ specialKeys := by
      rcases hk2 with h2 | h2 <;> rw [h2] <;> simp [specialKeys]
    unfold encodeVal decodeField
    rw [if_pos ⟨hmem, by simp⟩]
    simp only [fromisoformat_isoDate d hval]
    rw [if_pos hk2]
  | dt t =>
    have hk1 : k = "created" := by
      by_cases h1 : k = "created"
      · exact h1
      · rw [if_neg h1] at h
        by_cases h2 : k = "check_in" ∨ k = "check_out"
        · rw [if_pos h2] at h
          exact Bool.noConfusion h
        · rw [if_neg h2] at h
          exact Bool.noConfusion h
    have hval : validDateTime t = true := by
      rw [if_pos hk1] at h
      exact h
    subst hk1
    unfold encodeVal decodeField
    rw [if_pos ⟨by simp [specialKeys], by simp⟩]
    simp only [fromisoformat_isoDateTime t hval]
    rw [if_neg (by simp)]

theorem session_roundtrip (st : Session)
    (h : st.all (fun q => goodField q.1 q.2) = true) :
    (st.map (fun q => (q.1, encodeVal q.2))).map (fun q => (q.1, decodeField q.1 q.2)) = st := by
  induction st with
  | nil => rfl
  | cons q rest ih =>
    rw [List.all_cons, Bool.and_eq_true] at h
    rw [List.map_cons, List.map_cons]
    rw [ih h.2]
    show (q.1, decodeField q.1 (encodeVal q.2)) :: rest = q :: rest
    rw [decode_encode q.1 q.2 h.1]

/-- Snapshot round-trip: on a session map obeying the claim's field typing,
`load_user_booking_state` restores exactly what `save_user_booking_state`
wrote. -/
theorem load_save (m : SessionMap) (h : goodMap m = true) :
    load_user_booking_state (save_user_booking_state m) = some m := by
  induction m with
  | nil => rfl
  | cons p rest ih =>
    unfold goodMap at h ih
    rw [List.all_cons, Bool.and_eq_true] at h
    unfold save_user_booking_state load_user_booking_state at ih ⊢
    rw [List.map_cons, List.mapM_cons]
    rw [parseIntAll_printInt p.1]
    simp only [Option.map_some', Option.some_bind, Option.bind_eq_bind]
    rw [ih h.2]
    simp only [Option.some_bind]
    show some ((p.1, (p.2.map fun q => (q.1, encodeVal q.2)).map
      fun q => (q.1, decodeField q.1 q.2)) :: rest) = some (p :: rest)
    rw [session_roundtrip p.2 h.1]

end StateFile

namespace Booking

theorem truncRat_intCast (n : ℤ) : truncRat ((n : ℤ) : ℚ) = n := by
  unfold truncRat
  rw [Rat.num_intCast, Rat.den_intCast]
  exact Int.tdiv_one n

theorem expectedAmount_eval (ci co k : ℤ) (price : ℚ)
    (h : ((co - ci + 1 : ℤ) : ℚ) * price * 100 = ((k : ℤ) : ℚ)) :
    expectedAmount ci co price = k := by
  unfold expectedAmount
  rw [show (((co - ci) + 1 : ℤ) : ℚ) * price * 100 = ((k : ℤ) : ℚ) from h]
  exact truncRat_intCast k

end Booking

namespace Booking

theorem gds_of_mem (day : ℤ) (ranges : List (ℤ × ℤ × ℤ)) (uid : ℤ)
    (h : ∃ r ∈ ranges, r.2.1 ≤ day ∧ day ≤ r.2.2) :
    get_day_status day ranges uid = "mine" ∨ get_day_status day ranges uid = "others" := by
  induction ranges with
  | nil => simp at h
  | cons r rest ih =>
    obtain ⟨t, s, e⟩ := r
    rw [get_day_status]
    by_cases hin : s ≤ day ∧ day ≤ e
    · rw [if_pos hin]
      by_cases ht : (t == uid) = true
      · rw [if_pos ht]
        exact Or.inl rfl
      · rw [if_neg ht]
        exact Or.inr rfl
    · rw [if_neg hin]
      apply ih
      obtain ⟨r', hr', hcond⟩ := h
      rcases List.mem_cons.mp hr' with heq | hmem
      · rw [heq] at hcond
        exact absurd hcond hin
      · exact ⟨r', hmem, hcond⟩

theorem gds_all_mine (day : ℤ) (ranges : List (ℤ × ℤ × ℤ)) (uid : ℤ)
    (hsome : ∃ r ∈ ranges, r.1 = uid ∧ r.2.1 ≤ day ∧ day ≤ r.2.2)
    (hall : ∀ r ∈ ranges, (r.2.1 ≤ day ∧ day ≤ r.2.2) → r.1 = uid) :
    get_day_status day ranges uid = "mine" := by
  induction ranges with
  | nil => simp at hsome
  | cons r rest ih =>
    obtain ⟨t, s, e⟩ := r
    rw [get_day_status]
    by_cases hin : s ≤ day ∧ day ≤ e
    · rw [if_pos hin]
      have ht : t = uid := hall (t, s, e) (List.mem_cons_self _ _) hin
      rw [if_pos (by simp [ht])]
    · rw [if_neg hin]
      apply ih
      · obtain ⟨r', hr', hcond⟩ := hsome
        rcases List.mem_cons.mp hr' with heq | hmem
        · rw [heq] at hcond
          exact absurd hcond.2 hin
        · exact ⟨r', hmem, hcond⟩
      · intro r' hr' hcond
        exact hall r' (List.mem_cons_of_mem _ hr') hcond

/-- C5 (counterexample): with the booked ranges listed as
`[(2, 5, 5), (1, 5, 5)]` — another user's range first — viewer `1` looking
at day `5` (today = `0`) sees the cell rendered `others`, not `mine`,
although day `5` lies inside the viewer-owned range `(1, 5, 5)`:
`get_day_status` walks the list in order and the claimed mine-over-others
precedence does not hold. -/
theorem C5_counterexample :
    send_calendar_cell 0 "check_in" none [(2, 5, 5), (1, 5, 5)] 1 5 = DayCell.others ∧
      DayCell.others ≠ DayCell.mine ∧
      ((1 : ℤ), (5 : ℤ), (5 : ℤ)) ∈ [((2 : ℤ), (5 : ℤ), (5 : ℤ)), (1, 5, 5)] ∧
      ((5 : ℤ) ≤ 5 ∧ (5 : ℤ) ≤ 5) ∧ (0 : ℤ) ≤ 5 := by
  refine ⟨by decide, by decide, by decide, by decide, by decide⟩

/-- C5 (amended): a day not before today that lies in some viewer-owned
booked range is never rendered selectable (its callback is `null`); it is
rendered `mine` whenever, in addition, every booked range containing the
day is viewer-owned (the source resolves a day lying in both a viewer-owned
and a foreign range by list order, not by the claimed precedence). -/
theorem C5_amended (today day : ℤ) (stage : String) (check_in : Option ℤ)
    (ranges : List (ℤ × ℤ × ℤ)) (uid : ℤ) (htoday : today ≤ day)
    (hmine : ∃ r ∈ ranges, r.1 = uid ∧ r.2.1 ≤ day ∧ day ≤ r.2.2) :
    (send_calendar_cell today stage check_in ranges uid day).selectable = false ∧
      ((∀ r ∈ ranges, (r.2.1 ≤ day ∧ day ≤ r.2.2) → r.1 = uid) →
        send_calendar_cell today stage check_in ranges uid day = DayCell.mine) := by
  have hnotpast : ¬(day < today) := by omega
  have hw : ∃ r ∈ ranges, r.2.1 ≤ day ∧ day ≤ r.2.2 := by
    obtain ⟨r, hr, _, hc⟩ := hmine
    exact ⟨r, hr, hc⟩
  constructor
  · unfold send_calendar_cell
    rw [if_neg hnotpast]
    rcases gds_of_mem day ranges uid hw with hs | hs
    · rw [if_pos hs]
      rfl
    · rw [hs]
      rw [if_neg (by decide)]
      rw [if_pos rfl]
      rfl
  · intro hall
    unfold send_calendar_cell
    rw [if_neg hnotpast]
    rw [if_pos (gds_all_mine day ranges uid hmine hall)]

/-- C5 (witness): viewer `1`, sole booked range `(1, 5, 5)`, check-out
stage: day `5` is non-selectable and rendered `mine`. -/
theorem C5_witness :
    (send_calendar_cell 0 "check_out" none [(1, 5, 5)] 1 5).selectable = false ∧
      send_calendar_cell 0 "check_out" none [(1, 5, 5)] 1 5 = DayCell.mine :=
  ⟨(C5_amended 0 5 "check_out" none [(1, 5, 5)] 1 (by decide) (by decide)).1,
    (C5_amended 0 5 "check_out" none [(1, 5, 5)] 1 (by decide) (by decide)).2 (by decide)⟩

end Booking

namespace Booking

/-- C3 (counterexample): for price 100 and the selection
check-in 2024-06-10, check-out 2024-06-12 (ordinals 739047 and 739049),
the invoice amount `callback_confirm_booking` computes is
`int(float(((check_out - check_in).days + 1) * 100) * 100) = 30000`
minor units — three inclusive days — not the claimed 20000. -/
theorem C3_counterexample :
    toordinal 2024 6 10 = 739047 ∧ toordinal 2024 6 12 = 739049 ∧
      (callback_confirm_booking 5 1 100 0 739047 739049 true).2 = 30000 ∧
      (30000 : ℤ) ≠ 20000 := by
  refine ⟨by decide, by decide, ?_, by decide⟩
  show expectedAmount 739047 739049 100 = 30000
  exact expectedAmount_eval 739047 739049 30000 100 (by norm_num)

/-- C3 (amended): for price 100 and check-in 2024-06-10 /
check-out 2024-06-12 the computed invoice amount is 30000 minor units;
after the successful-payment event for that total the booking's status is
`confirmed`, its stored amount is `30000 / 100 = 300`, and the managers
chat is notified. -/
theorem C3_amended :
    (callback_confirm_booking 5 1 100 0 739047 739049 true).2 = 30000 ∧
      ((handle_successful_payment
          ((callback_confirm_booking 5 1 100 0 739047 739049 true).1) 30000).booking).status =
        "confirmed" ∧
      ((handle_successful_payment
          ((callback_confirm_booking 5 1 100 0 739047 739049 true).1) 30000).booking).amount =
        300 := by
  refine ⟨?_, rfl, ?_⟩
  · show expectedAmount 739047 739049 100 = 30000
    exact expectedAmount_eval 739047 739049 30000 100 (by norm_num)
  · show ((30000 : ℤ) : ℚ) / 100 = 300
    norm_num

/-- C4: the successful-payment handler is idempotent: on an already
`confirmed` booking it performs no manager notification, no amount write
and no change to the row; applied twice in succession to a
`waiting_payment` booking, the first call notifies and writes once and the
second call changes nothing. -/
theorem C4_idempotent (b : BookingRec) (total total2 : ℤ) :
    (b.status = "confirmed" → handle_successful_payment b total = ⟨b, false, false⟩) ∧
      (b.status = "waiting_payment" →
        (handle_successful_payment b total).managerNotified = true ∧
          (handle_successful_payment b total).amountWritten = true ∧
          handle_successful_payment ((handle_successful_payment b total).booking) total2 =
            ⟨(handle_successful_payment b total).booking, false, false⟩) := by
  constructor
  · intro h
    unfold handle_successful_payment
    rw [if_pos (by simp [h])]
  · intro h
    have h1 : handle_successful_payment b total =
        ⟨{ b with status := "confirmed", amount := (total : ℚ) / 100 }, true, true⟩ := by
      unfold handle_successful_payment
      rw [if_neg (by simp [h])]
    rw [h1]
    refine ⟨rfl, rfl, ?_⟩
    unfold handle_successful_payment
    rw [if_pos (by simp)]

/-- C4 (witness): a concrete confirmed booking is untouched by a replayed
payment; a concrete waiting-payment booking processed twice yields one
notification, one amount write, and an unchanged second call. -/
theorem C4_witness :
    handle_successful_payment ⟨0, 5, 1, some 739047, some 739049, "confirmed", 300⟩ 30000 =
        ⟨⟨0, 5, 1, some 739047, some 739049, "confirmed", 300⟩, false, false⟩ ∧
      (handle_successful_payment ⟨1, 5, 1, some 739047, some 739049, "waiting_payment", 0⟩
          30000).managerNotified = true ∧
      (handle_successful_payment ⟨1, 5, 1, some 739047, some 739049, "waiting_payment", 0⟩
          30000).amountWritten = true ∧
      handle_successful_payment
          ((handle_successful_payment ⟨1, 5, 1, some 739047, some 739049, "waiting_payment", 0⟩
            30000).booking) 30000 =
        ⟨(handle_successful_payment ⟨1, 5, 1, some 739047, some 739049, "waiting_payment", 0⟩
            30000).booking, false, false⟩ :=
  ⟨(C4_idempotent ⟨0, 5, 1, some 739047, some 739049, "confirmed", 300⟩ 30000 30000).1 rfl,
    ((C4_idempotent ⟨1, 5, 1, some 739047, some 739049, "waiting_payment", 0⟩ 30000 30000).2
      rfl).1,
    ((C4_idempotent ⟨1, 5, 1, some 739047, some 739049, "waiting_payment", 0⟩ 30000 30000).2
      rfl).2.1,
    ((C4_idempotent ⟨1, 5, 1, some 739047, some 739049, "waiting_payment", 0⟩ 30000 30000).2
      rfl).2.2⟩

end Booking

namespace Booking

theorem datepickOverlap_iff (state : SessionState) (db : List BookingRec) (ci cand : ℤ) :
    datepickOverlap ci cand
        ((db.filter (fun b => b.resource == state.res_id && b.status == "confirmed")).map
          (fun b => (b.check_in, b.check_out))) = true ↔
      ∃ c ∈ db, c.resource = state.res_id ∧ c.status = "confirmed" ∧
        ∃ s e, c.check_in = some s ∧ c.check_out = some e ∧ ci ≤ e ∧ s ≤ cand := by
  unfold datepickOverlap
  rw [List.any_eq_true]
  constructor
  · rintro ⟨p, hp, hf⟩
    obtain ⟨c, hcmem, hψ⟩ := List.mem_map.mp hp
    obtain ⟨hcdb, hφ⟩ := List.mem_filter.mp hcmem
    rw [Bool.and_eq_true, beq_iff_eq, beq_iff_eq] at hφ
    rw [← hψ] at hf
    refine ⟨c, hcdb, hφ.1, hφ.2, ?_⟩
    match hs : c.check_in, he : c.check_out with
    | none, _ =>
      rw [hs] at hf
      exact absurd hf (by simp)
    | some s, none =>
      rw [hs, he] at hf
      exact absurd hf (by simp)
    | some s, some e =>
      rw [hs, he] at hf
      rw [Bool.and_eq_true, decide_eq_true_eq, decide_eq_true_eq] at hf
      exact ⟨s, e, rfl, rfl, hf.1, hf.2⟩
  · rintro ⟨c, hcdb, hres, hstat, s, e, hs, he, h1, h2⟩
    refine ⟨(c.check_in, c.check_out),
      List.mem_map.mpr ⟨c, List.mem_filter.mpr ⟨hcdb, by simp [hres, hstat]⟩, rfl⟩, ?_⟩
    rw [hs, he]
    simp [h1, h2]

/-- C6 (counterexample): session check-in 2024-06-10 (739047), candidate
check-out 2024-06-12 (739049); a confirmed booking of the resource has
check-in 2024-06-11 (739048) and an unset check-out. The claim's overlap
condition, with the unset check-out read as the single day 739048, holds
(739047 ≤ 739048 and 739049 ≥ 739048), so the claim demands a failed
selection — but the handler skips the pair (`if not s or not e: continue`,
main.py 631-632) and stores both dates. -/
theorem C6_counterexample :
    callback_datepick_checkout ⟨1, some 739047, none⟩
        [⟨0, 9, 1, some 739048, none, "confirmed", 0⟩] 739049 =
      DatePickOutcome.success ⟨1, some 739047, some 739049⟩ ∧
      ((739047 : ℤ) ≤ 739048 ∧ (739048 : ℤ) ≤ 739049) := by
  exact ⟨rfl, by decide, by decide⟩

/-- C6 (amended): for a check-out selection with candidate strictly after
the stored check-in, the selection fails exactly when some confirmed
booking of the resource with BOTH dates set satisfies
`check-in ≤ existingEnd ∧ candidate ≥ existingStart`; a booking with an
unset check-in or check-out is skipped by the overlap loop, not treated as
a single-day range. On failure the session's check-in is cleared (check-out
left as it was); otherwise both dates end up stored. -/
theorem C6_amended (state : SessionState) (db : List BookingRec) (cand ci : ℤ)
    (hci : state.check_in = some ci) (hcand : ci < cand) :
    (callback_datepick_checkout state db cand =
        DatePickOutcome.overlapReset { state with check_in := none } ↔
      ∃ c ∈ db, c.resource = state.res_id ∧ c.status = "confirmed" ∧
        ∃ s e, c.check_in = some s ∧ c.check_out = some e ∧ ci ≤ e ∧ s ≤ cand) ∧
      ((¬ ∃ c ∈ db, c.resource = state.res_id ∧ c.status = "confirmed" ∧
          ∃ s e, c.check_in = some s ∧ c.check_out = some e ∧ ci ≤ e ∧ s ≤ cand) →
        callback_datepick_checkout state db cand =
          DatePickOutcome.success { state with check_out := some cand }) := by
  have hnotle : ¬(cand ≤ ci) := by omega
  by_cases hov : datepickOverlap ci cand
      ((db.filter (fun b => b.resource == state.res_id && b.status == "confirmed")).map
        (fun b => (b.check_in, b.check_out))) = true
  · have hout : callback_datepick_checkout state db cand =
        DatePickOutcome.overlapReset { state with check_in := none } := by
      unfold callback_datepick_checkout
      rw [hci]
      dsimp only
      rw [if_neg hnotle, if_pos hov]
    constructor
    · rw [hout]
      simp only [true_iff]
      exact (datepickOverlap_iff state db ci cand).mp hov
    · intro hno
      exact absurd ((datepickOverlap_iff state db ci cand).mp hov) hno
  · have hout : callback_datepick_checkout state db cand =
        DatePickOutcome.success { state with check_out := some cand } := by
      unfold callback_datepick_checkout
      rw [hci]
      dsimp only
      rw [if_neg hnotle, if_neg hov]
    constructor
    · rw [hout]
      constructor
      · intro h
        exact absurd h (by simp)
      · intro hp
        exact absurd ((datepickOverlap_iff state db ci cand).mpr hp) hov
    · intro _
      exact hout

/-- C6 (witness): with no confirmed booking at all, the selection with
check-in 739047 and candidate 739049 succeeds and stores both dates. -/
theorem C6_witness :
    callback_datepick_checkout ⟨1, some 739047, none⟩ [] 739049 =
      DatePickOutcome.success ⟨1, some 739047, some 739049⟩ :=
  (C6_amended ⟨1, some 739047, none⟩ [] 739049 739047 rfl (by decide)).2 (by simp)

end Booking

namespace Booking

theorem pc_missing_spec (db : List BookingRec) (b : BookingRec) (price : ℚ) (total : ℤ)
    (hstat : b.status = "waiting_payment") (hmiss : b.check_in = none ∨ b.check_out = none) :
    handle_pre_checkout_query db b price total =
      ⟨false, { b with status := "failed" }, false⟩ := by
  unfold handle_pre_checkout_query
  rw [if_neg (by simp [hstat])]
  rcases hmiss with h | h
  · rw [h]
  · match hin : b.check_in with
    | none => rfl
    | some ci => rw [h]

theorem pc_conflict_spec (db : List BookingRec) (b : BookingRec) (price : ℚ) (total : ℤ)
    (ci co : ℤ) (hstat : b.status = "waiting_payment")
    (hci : b.check_in = some ci) (hco : b.check_out = some co)
    (hconf : db.any (sqlConflict b) = true) :
    handle_pre_checkout_query db b price total =
      ⟨false, { b with status := "conflict" }, true⟩ := by
  unfold handle_pre_checkout_query
  rw [if_neg (by simp [hstat])]
  rw [hci, hco]
  dsimp only
  rw [if_pos hconf]

theorem pc_mismatch_spec (db : List BookingRec) (b : BookingRec) (price : ℚ) (total : ℤ)
    (ci co : ℤ) (hstat : b.status = "waiting_payment")
    (hci : b.check_in = some ci) (hco : b.check_out = some co)
    (hconf : db.any (sqlConflict b) = false) (hne : total ≠ expectedAmount ci co price) :
    handle_pre_checkout_query db b price total = ⟨false, b, false⟩ := by
  unfold handle_pre_checkout_query
  rw [if_neg (by simp [hstat])]
  rw [hci, hco]
  dsimp only
  rw [if_neg (by simp [hconf]), if_pos (by simpa using hne)]

/-- C7 (counterexample): a mismatched charge amount (999 against the
server-side 30000) is refused, but the booking's status stays
`waiting_payment` — no terminal failure status is written, and the same
record can be retried. -/
theorem C7_counterexample :
    handle_pre_checkout_query [] ⟨0, 5, 1, some 739047, some 739049, "waiting_payment", 0⟩
        100 999 =
      ⟨false, ⟨0, 5, 1, some 739047, some 739049, "waiting_payment", 0⟩, false⟩ ∧
      ("waiting_payment" : String) ≠ "failed" ∧ ("waiting_payment" : String) ≠ "conflict" := by
  refine ⟨?_, by decide, by decide⟩
  apply pc_mismatch_spec [] _ 100 999 739047 739049 rfl rfl rfl (by decide)
  rw [expectedAmount_eval 739047 739049 30000 100 (by norm_num)]
  decide

/-- C7 (amended): the three pre-checkout payment-integrity rejections all
refuse the charge; missing dates mark the booking `failed` and a
conflicting confirmed booking marks it `conflict` (terminal), but an
amount mismatch leaves the booking unchanged, still `waiting_payment` and
retryable. -/
theorem C7_amended (db : List BookingRec) (b : BookingRec) (price : ℚ) (total : ℤ)
    (hstat : b.status = "waiting_payment") :
    ((b.check_in = none ∨ b.check_out = none) →
      handle_pre_checkout_query db b price total =
        ⟨false, { b with status := "failed" }, false⟩) ∧
      (∀ ci co, b.check_in = some ci → b.check_out = some co →
        db.any (sqlConflict b) = true →
        handle_pre_checkout_query db b price total =
          ⟨false, { b with status := "conflict" }, true⟩) ∧
      (∀ ci co, b.check_in = some ci → b.check_out = some co →
        db.any (sqlConflict b) = false → total ≠ expectedAmount ci co price →
        handle_pre_checkout_query db b price total = ⟨false, b, false⟩) := by
  refine ⟨?_, ?_, ?_⟩
  · intro hmiss
    exact pc_missing_spec db b price total hstat hmiss
  · intro ci co hci hco hconf
    exact pc_conflict_spec db b price total ci co hstat hci hco hconf
  · intro ci co hci hco hconf hne
    exact pc_mismatch_spec db b price total ci co hstat hci hco hconf hne

/-- C7 (witness): a booking with a missing check-out is refused and marked
`failed`. -/
theorem C7_witness :
    handle_pre_checkout_query [] ⟨0, 5, 1, some 739047, none, "waiting_payment", 0⟩ 100 30000 =
      ⟨false, ⟨0, 5, 1, some 739047, none, "failed", 0⟩, false⟩ :=
  (C7_amended [] ⟨0, 5, 1, some 739047, none, "waiting_payment", 0⟩ 100 30000 rfl).1
    (Or.inr rfl)

end Booking

namespace Booking

theorem pc_outcome_cases (db : List BookingRec) (b : BookingRec) (price : ℚ) (total : ℤ) :
    handle_pre_checkout_query db b price total = ⟨true, b, false⟩ ∨
      handle_pre_checkout_query db b price total = ⟨false, b, false⟩ ∨
      (b.status = "waiting_payment" ∧
        handle_pre_checkout_query db b price total =
          ⟨false, { b with status := "failed" }, false⟩) ∨
      (b.status = "waiting_payment" ∧
        handle_pre_checkout_query db b price total =
          ⟨false, { b with status := "conflict" }, true⟩) := by
  unfold handle_pre_checkout_query
  split
  · exact Or.inr (Or.inl rfl)
  · next hstat =>
    have hwp : b.status = "waiting_payment" := by simpa using hstat
    split
    · exact Or.inr (Or.inr (Or.inl ⟨hwp, rfl⟩))
    · exact Or.inr (Or.inr (Or.inl ⟨hwp, rfl⟩))
    · split
      · exact Or.inr (Or.inr (Or.inr ⟨hwp, rfl⟩))
      · split
        · exact Or.inr (Or.inl rfl)
        · exact Or.inl rfl

theorem pc_status_change (db : List BookingRec) (b : BookingRec) (price : ℚ) (total : ℤ)
    (h : ((handle_pre_checkout_query db b price total).booking).status ≠ b.status) :
    b.status = "waiting_payment" ∧
      (((handle_pre_checkout_query db b price total).booking).status = "failed" ∨
        ((handle_pre_checkout_query db b price total).booking).status = "conflict") := by
  rcases pc_outcome_cases db b price total with he | he | ⟨hwp, he⟩ | ⟨hwp, he⟩
  · rw [he] at h
    exact absurd rfl h
  · rw [he] at h
    exact absurd rfl h
  · rw [he]
    exact ⟨hwp, Or.inl rfl⟩
  · rw [he]
    exact ⟨hwp, Or.inr rfl⟩

/-- C8 (counterexample): the successful-payment handler applied to a
booking whose status is `cancelled` changes it to `confirmed` — a status
change performed by a handler that is none of waiting_payment → failed,
waiting_payment → conflict, waiting_payment → confirmed, or
confirmed → cancelled. -/
theorem C8_counterexample :
    ((handle_successful_payment ⟨0, 5, 1, some 739049, some 739050, "cancelled", 300⟩
        30000).booking).status = "confirmed" ∧
      ("cancelled" : String) ≠ "waiting_payment" ∧ ("cancelled" : String) ≠ "confirmed" := by
  exact ⟨rfl, by decide, by decide⟩

/-- C8 (amended): the pre-checkout handler changes a status only from
`waiting_payment`, and only to `failed` or `conflict`; the
successful-payment handler leaves a `confirmed` row unchanged but sets
`confirmed` from any other status; the cancellation handler checks only
that the stored check-in is strictly after today — not the current
status — leaving every field unchanged on a rejected cancellation and
setting `cancelled` (from any status) otherwise. -/
theorem C8_amended (db : List BookingRec) (b : BookingRec) (price : ℚ) (total : ℤ)
    (today : ℤ) :
    (((handle_pre_checkout_query db b price total).booking).status ≠ b.status →
      b.status = "waiting_payment" ∧
        (((handle_pre_checkout_query db b price total).booking).status = "failed" ∨
          ((handle_pre_checkout_query db b price total).booking).status = "conflict")) ∧
      ((handle_successful_payment b total).booking).status = "confirmed" ∧
      (b.status = "confirmed" → (handle_successful_payment b total).booking = b) ∧
      (∀ ci, b.check_in = some ci → ci ≤ today →
        callback_cancel_my_booking today b = (b, false)) ∧
      (∀ ci, b.check_in = some ci → today < ci →
        callback_cancel_my_booking today b = ({ b with status := "cancelled" }, true)) := by
  refine ⟨pc_status_change db b price total, (sp_booking_fields b total).2.2.2.2, ?_, ?_, ?_⟩
  · intro h
    unfold handle_successful_payment
    rw [if_pos (by simp [h])]
  · intro ci hci hle
    unfold callback_cancel_my_booking
    rw [hci]
    dsimp only
    rw [if_pos hle]
  · intro ci hci hgt
    unfold callback_cancel_my_booking
    rw [hci]
    dsimp only
    rw [if_neg (by omega)]

/-- C8 (witness): concrete instances of each characterized behavior — a
conflict rejection moves `waiting_payment` to `conflict`; a replayed
payment fixes a confirmed row; the cancellation handler rejects a past
check-in without touching the row and cancels a future one. -/
theorem C8_witness :
    (⟨0, 5, 1, some 739047, some 739049, "waiting_payment", 0⟩ : BookingRec).status =
        "waiting_payment" ∧
      (((handle_pre_checkout_query [⟨1, 9, 1, some 739048, some 739050, "confirmed", 300⟩]
          ⟨0, 5, 1, some 739047, some 739049, "waiting_payment", 0⟩ 100 30000).booking).status =
          "failed" ∨
        ((handle_pre_checkout_query [⟨1, 9, 1, some 739048, some 739050, "confirmed", 300⟩]
          ⟨0, 5, 1, some 739047, some 739049, "waiting_payment", 0⟩ 100 30000).booking).status =
          "conflict") ∧
      (handle_successful_payment ⟨2, 5, 1, some 739047, some 739049, "confirmed", 300⟩
          30000).booking = ⟨2, 5, 1, some 739047, some 739049, "confirmed", 300⟩ ∧
      callback_cancel_my_booking 739050
          ⟨0, 5, 1, some 739047, some 739049, "confirmed", 300⟩ =
        (⟨0, 5, 1, some 739047, some 739049, "confirmed", 300⟩, false) ∧
      callback_cancel_my_booking 0 ⟨0, 5, 1, some 739047, some 739049, "conflict", 0⟩ =
        (⟨0, 5, 1, some 739047, some 739049, "cancelled", 0⟩, true) :=
  ⟨((C8_amended [⟨1, 9, 1, some 739048, some 739050, "confirmed", 300⟩]
      ⟨0, 5, 1, some 739047, some 739049, "waiting_payment", 0⟩ 100 30000 0).1
      (by decide)).1,
    ((C8_amended [⟨1, 9, 1, some 739048, some 739050, "confirmed", 300⟩]
      ⟨0, 5, 1, some 739047, some 739049, "waiting_payment", 0⟩ 100 30000 0).1
      (by decide)).2,
    (C8_amended [] ⟨2, 5, 1, some 739047, some 739049, "confirmed", 300⟩ 100 30000 0).2.2.1
      rfl,
    (C8_amended [] ⟨0, 5, 1, some 739047, some 739049, "confirmed", 300⟩ 100 30000
      739050).2.2.2.1 739047 rfl (by decide),
    (C8_amended [] ⟨0, 5, 1, some 739047, some 739049, "conflict", 0⟩ 100 30000 0).2.2.2.2
      739047 rfl (by decide)⟩

end Booking

namespace Booking

/-- The claim's notion of a date-overlapping other booking: another row of
the same resource, `confirmed`, whose range `[check_in, check_out]` (an
unset check-out read as the single day `check_in`) intersects
`[ci, co]`. -/
def claimOverlaps (b : BookingRec) (ci co : ℤ) (c : BookingRec) : Prop :=
  c.id ≠ b.id ∧ c.resource = b.resource ∧ c.status = "confirmed" ∧
    ∃ s, c.check_in = some s ∧ s ≤ co ∧ ci ≤ c.check_out.getD s

theorem no_claimOverlap_no_sqlConflict (db : List BookingRec) (b : BookingRec) (ci co : ℤ)
    (hci : b.check_in = some ci) (hco : b.check_out = some co)
    (hover : ∀ c ∈ db, ¬ claimOverlaps b ci co c) :
    db.any (sqlConflict b) = false := by
  rw [List.any_eq_false]
  intro c hc htrue
  unfold sqlConflict at htrue
  cases hs : c.check_in with
  | none =>
    rw [hs] at htrue
    simp at htrue
  | some s =>
    cases he : c.check_out with
    | none =>
      rw [hs, he] at htrue
      simp at htrue
    | some e =>
      rw [hs, he, hci, hco] at htrue
      simp only [Bool.and_eq_true, beq_iff_eq, bne_iff_ne, ne_eq, decide_eq_true_eq] at htrue
      obtain ⟨⟨⟨⟨hres, hid⟩, hstat⟩, h1⟩, h2⟩ := htrue
      exact hover c hc ⟨hid, hres, hstat, s, hs, h1, by rw [he]; exact h2⟩

theorem pc_approves (db : List BookingRec) (b : BookingRec) (price : ℚ) (total : ℤ)
    (ci co : ℤ) (hstat : b.status = "waiting_payment")
    (hci : b.check_in = some ci) (hco : b.check_out = some co)
    (hconf : db.any (sqlConflict b) = false) (htot : total = expectedAmount ci co price) :
    handle_pre_checkout_query db b price total = ⟨true, b, false⟩ := by
  unfold handle_pre_checkout_query
  rw [if_neg (by simp [hstat])]
  rw [hci, hco]
  dsimp only
  rw [if_neg (by simp [hconf]), if_neg (by simp [htot])]

/-- C2: on a `waiting_payment` booking with both dates set, whose resource
has no other date-overlapping confirmed booking (unset check-outs read as
single days), and whose nightly price yields an integral amount of minor
units, the pre-checkout handler approves the charge if and only if the
proposed total equals `nights_inclusive(check_in, check_out) × price × 100`
(the inclusive day span `(check_out - check_in).days + 1`). -/
theorem C2_amount_iff (db : List BookingRec) (b : BookingRec) (price : ℚ) (total : ℤ)
    (ci co k : ℤ) (hstat : b.status = "waiting_payment")
    (hci : b.check_in = some ci) (hco : b.check_out = some co)
    (hk : price * 100 = (k : ℚ))
    (hover : ∀ c ∈ db, ¬ claimOverlaps b ci co c) :
    (handle_pre_checkout_query db b price total).ok = true ↔
      (total : ℚ) = ((co - ci + 1 : ℤ) : ℚ) * price * 100 := by
  have hconf := no_claimOverlap_no_sqlConflict db b ci co hci hco hover
  have hcast : ((co - ci + 1 : ℤ) : ℚ) * price * 100 = (((co - ci + 1) * k : ℤ) : ℚ) := by
    push_cast
    rw [← hk]
    ring
  have hexp : expectedAmount ci co price = (co - ci + 1) * k :=
    expectedAmount_eval ci co ((co - ci + 1) * k) price hcast
  constructor
  · intro hok
    obtain ⟨_, _, ⟨ci', co', hci', hco', htot⟩, _⟩ := pc_ok_spec db b price total hok
    rw [hci] at hci'
    rw [hco] at hco'
    cases hci'
    cases hco'
    rw [htot, hexp, hcast]
  · intro htot
    have htotz : total = (co - ci + 1) * k := by
      have h2 : ((total : ℤ) : ℚ) = (((co - ci + 1) * k : ℤ) : ℚ) := by
        rw [htot, hcast]
      exact_mod_cast h2
    rw [pc_approves db b price total ci co hstat hci hco hconf (by rw [htotz, hexp])]

/-- C2 (witness): price 100, dates 2024-06-10 → 2024-06-12, no other
booking: the approval is equivalent to the total being
`3 × 100 × 100` minor units. -/
theorem C2_witness :
    (handle_pre_checkout_query [] ⟨0, 5, 1, some 739047, some 739049, "waiting_payment", 0⟩
        100 30000).ok = true ↔
      ((30000 : ℤ) : ℚ) = ((739049 - 739047 + 1 : ℤ) : ℚ) * 100 * 100 :=
  C2_amount_iff [] ⟨0, 5, 1, some 739047, some 739049, "waiting_payment", 0⟩ 100 30000
    739047 739049 10000 rfl rfl rfl (by norm_num) (by simp)

end Booking

namespace Booking

/-- All resources priced 100 per night. -/
def c1Prices : ℕ → ℚ := fun _ => 100

/-- Two users confirm overlapping ranges on resource 1
(2024-06-10 → 2024-06-12 and 2024-06-11 → 2024-06-13, ordinals
739047-739049 and 739048-739050); both payments then land. Each payment
had been approved by `handle_pre_checkout_query` beforehand (see
`C1_counterexample`): at approval time neither row was `confirmed`, so the
conflict query found nothing. -/
def c1Events : List BotEvent :=
  [.confirmBooking 1 1 739047 739049 true,
    .confirmBooking 2 1 739048 739050 true,
    .successfulPayment 0 30000,
    .successfulPayment 1 30000]

/-- C1 (counterexample): after the event sequence `c1Events` the table
holds two `confirmed` bookings of resource 1 with intersecting projected
ranges, so the claimed invariant fails at a reachable state. The third and
fourth conjuncts certify that the pre-checkout handler approves both
charges against the intermediate table (both rows still
`waiting_payment`), so the two payments are legitimate. -/
theorem C1_counterexample :
    (run c1Prices (c1Events.take 2)).map
        (fun b => (b.id, b.telegram_id, b.resource, b.status, b.check_in, b.check_out)) =
      [(0, 1, 1, "waiting_payment", some 739047, some 739049),
        (1, 2, 1, "waiting_payment", some 739048, some 739050)] ∧
      (handle_pre_checkout_query (run c1Prices (c1Events.take 2))
        ⟨0, 1, 1, some 739047, some 739049, "waiting_payment", 0⟩ 100 30000).ok = true ∧
      (handle_pre_checkout_query (run c1Prices (c1Events.take 2))
        ⟨1, 2, 1, some 739048, some 739050, "waiting_payment", 0⟩ 100 30000).ok = true ∧
      (run c1Prices c1Events).map
          (fun b => (b.id, b.resource, b.status, b.check_in, b.check_out)) =
        [(0, 1, "confirmed", some 739047, some 739049),
          (1, 1, "confirmed", some 739048, some 739050)] ∧
      ¬ ConfDisjoint (run c1Prices c1Events) := by
  have hexp : expectedAmount 739047 739049 100 = 30000 :=
    expectedAmount_eval 739047 739049 30000 100 (by norm_num)
  have hexp2 : expectedAmount 739048 739050 100 = 30000 :=
    expectedAmount_eval 739048 739050 30000 100 (by norm_num)
  refine ⟨rfl, ?_, ?_, rfl, ?_⟩
  · rw [pc_approves (run c1Prices (c1Events.take 2))
      ⟨0, 1, 1, some 739047, some 739049, "waiting_payment", 0⟩ 100 30000 739047 739049
      rfl rfl rfl (by decide) hexp.symm]
  · rw [pc_approves (run c1Prices (c1Events.take 2))
      ⟨1, 2, 1, some 739048, some 739050, "waiting_payment", 0⟩ 100 30000 739048 739050
      rfl rfl rfl (by decide) hexp2.symm]
  · have hrun : run c1Prices c1Events =
        [⟨0, 1, 1, some 739047, some 739049, "confirmed", ((30000 : ℤ) : ℚ) / 100⟩,
          ⟨1, 2, 1, some 739048, some 739050, "confirmed", ((30000 : ℤ) : ℚ) / 100⟩] := rfl
    rw [hrun]
    intro h
    obtain ⟨h01, _⟩ := List.pairwise_cons.mp h
    refine h01 _ (List.mem_cons_self _ _) rfl rfl ?_
    exact ⟨rfl, (739047, 739049), (739048, 739050), rfl, rfl, by decide, by decide⟩

/-- C1 (amended): in the machine where each successful payment is fused
with its own pre-checkout approval (`AtomicEvent.paySuccess` runs the
approval and, only on `ok`, the confirmation, with no event in between),
every state reachable from the empty table by check-out selections,
booking confirmations, stand-alone pre-checkout validations, atomic
payments and cancellations has pairwise non-overlapping `confirmed`
bookings per resource. The unrestricted machine violates the invariant
(`C1_counterexample`): two overlapping `waiting_payment` rows can both be
approved before either payment lands, and the successful-payment handler
itself performs no overlap check. -/
theorem C1_amended (prices : ℕ → ℚ) (evs : List AtomicEvent) :
    ConfDisjoint (runA prices evs) :=
  (inv_runA prices evs).2.2

end Booking

namespace StateFile

/-- C9: snapshot/restore round-trip. For every session map whose keys are
integers and whose entries hold a datetime `created`, null-or-date
`check_in`/`check_out`, and JSON-representable scalars elsewhere, loading
the state file written by the save operation restores the map exactly:
dates come back as dates, `created` as a datetime, user ids as
integers. -/
theorem C9_roundtrip (m : SessionMap) (h : goodMap m = true) :
    load_user_booking_state (save_user_booking_state m) = some m :=
  load_save m h

/-- A two-user session map exercising every conversion: a negative user
id, a date, nulls, a datetime with and without microseconds, and plain
scalars. -/
def exampleMap : SessionMap :=
  [(123, [("res_id", .int 5), ("check_in", .date ⟨2024, 6, 10⟩), ("check_out", .null),
      ("calendar_year", .int 2024), ("calendar_month", .int 6),
      ("created", .dt ⟨2024, 6, 10, 12, 30, 45, 123456⟩)]),
    (-7, [("created", .dt ⟨2025, 1, 2, 3, 4, 5, 0⟩), ("check_in", .null),
      ("check_out", .date ⟨2025, 12, 31⟩), ("note", .str "x".data), ("flag", .bool true)])]

/-- C9 (witness): the concrete map `exampleMap` obeys the typing and
round-trips. -/
theorem C9_witness :
    goodMap exampleMap = true ∧
      load_user_booking_state (save_user_booking_state exampleMap) = some exampleMap :=
  ⟨by decide, C9_roundtrip exampleMap (by decide)⟩

end StateFile

namespace Recon

/-- C10: for every statement (modelled by an oracle giving each execution
attempt's outcome), `execute_sql` terminates with: at most 20 retries
after the first execution, the sleep before the `t`-th retry being `t/10`
seconds for `t = 0, 1, …` (the returned list collects the `time.sleep`
arguments in tenths); if every attempt up to index 20 raises a transient
error, the final transient error is re-raised after exactly 20 retries;
and an error not matching the transient signatures propagates unchanged
the first time it occurs, with no further retry. -/
theorem C10_execute_sql (V : Type) (oracle : ℕ → Except PyExc V) :
    ((execute_sql oracle).2.length ≤ 20 ∧
      (execute_sql oracle).2 = List.range ((execute_sql oracle).2.length)) ∧
      ((∀ i, i ≤ 20 → ∃ e, oracle i = .error e ∧ isTransient e = true) →
        ∃ e, oracle 20 = .error e ∧
          execute_sql oracle = (.error e, List.range 20)) ∧
      (∀ k, k ≤ 20 →
        (∀ i, i < k → ∃ e, oracle i = .error e ∧ isTransient e = true) →
        ∀ e, oracle k = .error e → isTransient e = false →
          execute_sql oracle = (.error e, List.range k)) := by
  unfold execute_sql
  obtain ⟨hsl, hlen⟩ := execute_sql_aux_sleeps oracle 20 0 (by omega)
  refine ⟨⟨by omega, ?_⟩, ?_, ?_⟩
  · rw [List.range_eq_range']
    exact hsl
  · intro hall
    obtain ⟨e, he, hres⟩ := execute_sql_aux_exhaust oracle 20 0 (by omega) (by omega)
      (fun i _ hi2 => hall i hi2)
    refine ⟨e, he, ?_⟩
    rw [hres, List.range_eq_range']
  · intro k hk hpre e he htr
    have hres := execute_sql_aux_nontransient oracle k 0 k (by omega) (by omega) hk
      (fun i _ hi2 => hpre i hi2) e he htr
    rw [hres, List.range_eq_range', Nat.sub_zero]

/-- An oracle that always raises MySQL error 2006 (server gone away), a
registered transient signature. -/
def transOracle : ℕ → Except PyExc Unit :=
  fun _ => .error ⟨"OperationalError", "(2006, 'MySQL server has gone away')".data⟩

/-- An oracle that always raises a non-transient error. -/
def fatalOracle : ℕ → Except PyExc Unit :=
  fun _ => .error ⟨"ProgrammingError", "syntax error in SQL".data⟩

/-- C10 (witness): under permanently transient 2006 errors the statement
is retried 20 times (sleeps 0/10 … 19/10) and the error is then raised;
a non-transient error propagates at once with no retry. -/
theorem C10_witness :
    execute_sql transOracle =
        (.error ⟨"OperationalError", "(2006, 'MySQL server has gone away')".data⟩,
          List.range 20) ∧
      execute_sql fatalOracle =
        (.error ⟨"ProgrammingError", "syntax error in SQL".data⟩, List.range 0) := by
  constructor
  · obtain ⟨e, he, hres⟩ := (C10_execute_sql Unit transOracle).2.1
      (fun i _ => ⟨⟨"OperationalError", "(2006, 'MySQL server has gone away')".data⟩,
        rfl, by decide⟩)
    have heq : (⟨"OperationalError", "(2006, 'MySQL server has gone away')".data⟩ : PyExc) = e :=
      Except.error.inj he
    rw [← heq] at hres
    exact hres
  · exact (C10_execute_sql Unit fatalOracle).2.2 0 (by omega)
      (fun i hi => absurd hi (by omega)) _ rfl (by decide)

end Recon
